import Mathlib

/-!
# Verification of the sharding router/shard core

A shallow embedding, in Lean 4, of the routing and coordination subsystem of
the `sharding` crate: the message codec (`node/messages/message.rs`,
`node/messages/node_info.rs`, `node/tables_id_info.rs`), the textual query
helpers (`utils/queries.rs`), the router's dispatch and response merging
(`node/router.rs`), the shard manager built on Rust's `BinaryHeap`
(`node/shard_manager.rs`, `alloc::collections::binary_heap`), the memory
manager (`node/memory_manager.rs`) and the shard's control-message handler
(`node/shard.rs`).

Modelling conventions:
* Rust `String`/`&str` values are `Str := List Char`.  The queries and wire
  messages exercised here are ASCII, where Rust's byte indices coincide with
  character indices and `to_uppercase` is `Char.toUpper` character-wise.
* Rust `f64` values that only flow through the codec (the free-storage
  payload) are modelled by `F64Lit`, a signed decimal literal — the grammar
  `f64::to_string` produces and `f64::from_str` reads back exactly.
  `f64` keys of the shard-selection heap and the memory-manager arithmetic
  are modelled by `ℚ` (exact arithmetic; the values involved are finite and
  non-NaN, on which `partial_cmp` is the total order of `ℚ`).
* `i64`/`i32` are `Int`; `i64::from_str`'s range check is kept explicit.
* A Rust `panic!` (including `Option::unwrap` on `None` and
  `Result::unwrap` on `Err`) is the `panicked` constructor of `PResult`;
  fallible functions return `PResult`/`Option`/`MsgResult`.
* All recursion is structural (fuel-based where the source loop is not), so
  every definition evaluates by `decide`/`rfl` on concrete input.
-/

/-- Outcome of running a piece of Rust code that can `panic!`. -/
inductive PResult (α : Type) where
  | ok (a : α)
  | panicked
deriving DecidableEq, Repr

def PResult.map {α β : Type} (f : α → β) : PResult α → PResult β
  | .ok a => .ok (f a)
  | .panicked => .panicked

/-- Rust strings, as character lists (the inputs exercised are ASCII). -/
abbrev Str : Type := List Char

/-- Coerce a Lean string literal into the `Str` model. -/
def lit (s : String) : Str := s.data

/-- `char::is_whitespace` restricted to the ASCII whitespace that occurs on
this wire format (space, tab, CR, LF). -/
def isWsChar (c : Char) : Bool := c = ' ' || c = '\t' || c = '\n' || c = '\r'

/-- ASCII digit test, as in `char::is_ascii_digit`. -/
def isDigitChar (c : Char) : Bool := 48 ≤ c.toNat && c.toNat ≤ 57

/-- The decimal digit character for `k < 10` (`b'0' + k`). -/
def digitChar (k : Nat) : Char := Char.ofNat (48 + k)

/-- Numeric value of a digit character. -/
def charVal (c : Char) : Nat := c.toNat - 48

/-- Accumulator worker for `str::split_whitespace`: `cur` is the current
token, reversed.  Splits at whitespace runs and never yields empty tokens. -/
def splitWsAux : Str → Str → List Str
  | [], cur => if cur = [] then [] else [cur.reverse]
  | c :: rest, cur =>
    if isWsChar c then
      if cur = [] then splitWsAux rest []
      else cur.reverse :: splitWsAux rest []
    else splitWsAux rest (c :: cur)

/-- `str::split_whitespace`, collected into a list. -/
def splitWs (s : Str) : List Str := splitWsAux s []

/-- `str::split(sep)`, collected into a list: splits at every occurrence of
`sep`, keeping empty segments; always returns at least one segment. -/
def splitOnChar (sep : Char) : Str → List Str
  | [] => [[]]
  | c :: rest =>
    if c = sep then [] :: splitOnChar sep rest
    else
      match splitOnChar sep rest with
      | t :: ts => (c :: t) :: ts
      | [] => [[c]]

/-- `str::trim` (ASCII whitespace at both ends). -/
def trimStr (s : Str) : Str :=
  ((s.dropWhile isWsChar).reverse.dropWhile isWsChar).reverse

/-- `str::find(pat)` for a nonempty pattern: index of the first occurrence
of `pat` as a contiguous substring. -/
def findSub (pat : Str) : Str → Option Nat
  | [] => if pat = [] then some 0 else none
  | c :: rest =>
    if pat.isPrefixOf (c :: rest) then some 0
    else (findSub pat rest).map (· + 1)

/-- `str::to_uppercase`, character-wise (exact for ASCII input). -/
def toUpperStr (s : Str) : Str := s.map Char.toUpper

/-- Fueled worker for rendering a natural number in decimal
(`u64`/`i64` formatting); `fuel ≥ n` suffices. -/
def natToStrAux : Nat → Nat → Str → Str
  | 0, n, acc => digitChar n :: acc
  | fuel + 1, n, acc =>
    if n < 10 then digitChar n :: acc
    else natToStrAux fuel (n / 10) (digitChar (n % 10) :: acc)

/-- Decimal rendering of a natural number (`5 ↦ "5"`, `0 ↦ "0"`). -/
def natToStr (n : Nat) : Str := natToStrAux n n []

/-- Parse an unsigned decimal numeral: every character a digit, nonempty. -/
def parseNat (s : Str) : Option Nat :=
  if s ≠ [] ∧ s.all isDigitChar = true then
    some (s.foldl (fun a c => a * 10 + charVal c) 0)
  else none

/-- `i64::to_string`. -/
def intToStr (v : Int) : Str :=
  if v < 0 then '-' :: natToStr v.natAbs else natToStr v.toNat

/-- The `i64` range, `[-2^63, 2^63)`. -/
def i64InRange (v : Int) : Prop := -(2 ^ 63) ≤ v ∧ v < 2 ^ 63

instance (v : Int) : Decidable (i64InRange v) := by
  unfold i64InRange; infer_instance

/-- `i64::from_str`: optional sign, decimal digits, range-checked. -/
def parseI64 (s : Str) : Option Int :=
  match s with
  | [] => none
  | c :: r =>
    if c = '-' then
      match parseNat r with
      | some n => if (-(n : Int)) ≥ -(2 ^ 63) then some (-(n : Int)) else none
      | none => none
    else if c = '+' then
      match parseNat r with
      | some n => if (n : Int) < 2 ^ 63 then some (n : Int) else none
      | none => none
    else
      match parseNat (c :: r) with
      | some n => if (n : Int) < 2 ^ 63 then some (n : Int) else none
      | none => none

/-- A finite `f64` as the decimal literal `f64::to_string` prints and
`f64::from_str` reads back: optional sign, integer part, optional fraction
digits.  Only the codec touches these values, so the literal itself is the
faithful value domain. -/
structure F64Lit where
  neg : Bool
  intPart : Nat
  frac : List (Fin 10)
deriving DecidableEq, Repr

/-- `f64::to_string` on an `F64Lit` (e.g. `32.5`, `-0.25`, `87`). -/
def f64ToStr (p : F64Lit) : Str :=
  (if p.neg then ['-'] else []) ++ natToStr p.intPart ++
    (if p.frac = [] then [] else '.' :: p.frac.map (fun d => digitChar d.val))

/-- Unsigned part of the `f64` literal parser. -/
def parseF64Pos (s : Str) : Option F64Lit :=
  match splitOnChar '.' s with
  | [ipart] => (parseNat ipart).map (fun n => ⟨false, n, []⟩)
  | [ipart, fpart] =>
    match parseNat ipart with
    | some n =>
      if fpart ≠ [] ∧ fpart.all isDigitChar = true then
        some ⟨false, n, fpart.map (fun c => (⟨charVal c % 10, Nat.mod_lt _ (by omega)⟩ : Fin 10))⟩
      else none
    | none => none
  | _ => none

/-- `f64::from_str` on the decimal-literal grammar the encoder emits
(`"abc"`-style tokens fail, as in Rust). -/
def parseF64 (s : Str) : Option F64Lit :=
  match s with
  | [] => none
  | c :: r =>
    if c = '-' then (parseF64Pos r).map (fun p => { p with neg := true })
    else if c = '+' then parseF64Pos r
    else parseF64Pos (c :: r)

/-! ## Message codec (`node/tables_id_info.rs`, `node/messages/*.rs`) -/

/-- `TablesIdInfo = IndexMap<String, i64>`: an insertion-ordered map from
table name to that shard's max id, as an association list in insertion
order. -/
abbrev TablesIdInfoM : Type := List (Str × Int)

/-- `IndexMap::insert`: replace in place when the key exists, else append. -/
def indexMapInsert (m : TablesIdInfoM) (k : Str) (v : Int) : TablesIdInfoM :=
  match m with
  | [] => [(k, v)]
  | (k', v') :: rest =>
    if k' = k then (k', v) :: rest else (k', v') :: indexMapInsert rest k v

/-- `IndexMap::get` on the association list. -/
def indexMapGet (m : TablesIdInfoM) (k : Str) : Option Int :=
  match m with
  | [] => none
  | (k', v') :: rest => if k' = k then some v' else indexMapGet rest k

/-- `TablesIdInfo::convert_to_string`: `"t1:3,t2:5"` (comma-joined). -/
def tablesToStr (m : TablesIdInfoM) : Str :=
  match m with
  | [] => []
  | [(k, v)] => k ++ ':' :: intToStr v
  | (k, v) :: rest => k ++ ':' :: intToStr v ++ ',' :: tablesToStr rest

/-- One `"key:value"` pair of `TablesIdInfo::from_string`; a missing or
non-numeric value is a `panic!`. -/
def tablesPairParse (pair : Str) : PResult (Str × Int) :=
  match splitOnChar ':' pair with
  | [] => .panicked
  | [_] => .panicked
  | k :: v :: _ =>
    match parseI64 v with
    | some n => .ok (k, n)
    | none => .panicked

/-- `TablesIdInfo::from_string`: split on `','`, parse each `key:value`
pair, insert into a fresh `IndexMap`. -/
def tablesFromStr (s : Str) : PResult TablesIdInfoM :=
  (splitOnChar ',' s).foldl
    (fun acc pair =>
      match acc with
      | .panicked => .panicked
      | .ok m =>
        match tablesPairParse pair with
        | .ok (k, v) => .ok (indexMapInsert m k v)
        | .panicked => .panicked)
    (.ok [])

/-- `NodeInfo { ip, port }`. -/
structure NodeInfoM where
  ip : Str
  port : Str
deriving DecidableEq, Repr

/-- `NodeInfo::from_str`: split on `':'`; `Err("Missing port")` when there
is no colon (the caller `unwrap`s that error). -/
def nodeInfoFromStr (s : Str) : Option NodeInfoM :=
  match splitOnChar ':' s with
  | [] => none
  | [_] => none
  | ip :: port :: _ => some ⟨ip, port⟩

/-- `MessageType` (message.rs). -/
inductive MessageTypeM where
  | InitConnection
  | AskMemoryUpdate
  | MemoryUpdate
  | Agreed
  | Denied
  | GetRouter
  | RouterId
  | NoRouterData
  | Query
  | QueryResponse
deriving DecidableEq, Repr

/-- Wire token of each message type. -/
def messageTypeTok : MessageTypeM → Str
  | .InitConnection => lit ("INIT_CONNECTION")
  | .AskMemoryUpdate => lit ("ASK_MEMORY_UPDATE")
  | .MemoryUpdate => lit ("MEMORY_UPDATE")
  | .Agreed => lit ("AGREED")
  | .Denied => lit ("DENIED")
  | .GetRouter => lit ("GET_ROUTER")
  | .RouterId => lit ("ROUTER_ID")
  | .NoRouterData => lit ("NO_ROUTER_DATA")
  | .Query => lit ("QUERY")
  | .QueryResponse => lit ("QUERY_RESPONSE")

/-- Inverse of `messageTypeTok`, as in the `match` of `from_string`. -/
def parseMessageType (tok : Str) : Option MessageTypeM :=
  if tok = lit ("INIT_CONNECTION") then some .InitConnection
  else if tok = lit ("ASK_MEMORY_UPDATE") then some .AskMemoryUpdate
  else if tok = lit ("MEMORY_UPDATE") then some .MemoryUpdate
  else if tok = lit ("AGREED") then some .Agreed
  else if tok = lit ("DENIED") then some .Denied
  else if tok = lit ("GET_ROUTER") then some .GetRouter
  else if tok = lit ("ROUTER_ID") then some .RouterId
  else if tok = lit ("NO_ROUTER_DATA") then some .NoRouterData
  else if tok = lit ("QUERY") then some .Query
  else if tok = lit ("QUERY_RESPONSE") then some .QueryResponse
  else none

/-- `Message` (message.rs): type plus four optional fields. -/
structure MessageM where
  message_type : MessageTypeM
  payload : Option F64Lit
  max_ids : Option TablesIdInfoM
  node_info : Option NodeInfoM
  query_data : Option Str
deriving DecidableEq, Repr

/-- Wire token of the optional payload field: the float's decimal string,
or `"None"`. -/
def payloadTok (payload : Option F64Lit) : Str :=
  match payload with
  | some p => f64ToStr p
  | none => lit ("None")

/-- Wire token of the optional `max_ids` field. -/
def maxIdsTok (max_ids : Option TablesIdInfoM) : Str :=
  match max_ids with
  | some t => tablesToStr t
  | none => lit ("None")

/-- Wire token of the optional `node_info` field (`"ip:port"`). -/
def nodeTok (node_info : Option NodeInfoM) : Str :=
  match node_info with
  | some ni => ni.ip ++ ':' :: ni.port
  | none => lit ("None")

/-- Wire rendering of the optional query field. -/
def queryTok (query_data : Option Str) : Str :=
  match query_data with
  | some q => q
  | none => lit ("None")

namespace MessageM

def new_init_connection (ni : NodeInfoM) : MessageM :=
  ⟨.InitConnection, none, none, some ni, none⟩

def new_ask_memory_update : MessageM :=
  ⟨.AskMemoryUpdate, none, none, none, none⟩

def new_memory_update (payload : F64Lit) (max_ids : TablesIdInfoM) : MessageM :=
  ⟨.MemoryUpdate, some payload, some max_ids, none, none⟩

def new_agreed (pct : F64Lit) (max_ids : TablesIdInfoM) : MessageM :=
  ⟨.Agreed, some pct, some max_ids, none, none⟩

def new_denied : MessageM := ⟨.Denied, none, none, none, none⟩

def new_get_router : MessageM := ⟨.GetRouter, none, none, none, none⟩

def new_router_id (ni : NodeInfoM) : MessageM :=
  ⟨.RouterId, none, none, some ni, none⟩

def new_no_router_data : MessageM := ⟨.NoRouterData, none, none, none, none⟩

def new_query (sender : Option NodeInfoM) (q : Str) : MessageM :=
  ⟨.Query, none, none, sender, some q⟩

def new_query_response (r : Str) : MessageM :=
  ⟨.QueryResponse, none, none, none, some r⟩

/-- `Message::to_string`: five space-separated fields and a newline;
absent fields print as `None`. -/
def to_string (m : MessageM) : Str :=
  messageTypeTok m.message_type ++
    ' ' :: payloadTok m.payload ++
    ' ' :: maxIdsTok m.max_ids ++
    ' ' :: nodeTok m.node_info ++
    ' ' :: queryTok m.query_data ++
    ['\n']

end MessageM

/-- Outcome of `Message::from_string`: `Ok`, `Err(&'static str)`, or a
`panic!` from an `unwrap` inside. -/
inductive MsgResult where
  | ok (m : MessageM)
  | err (e : Str)
  | panicked
deriving DecidableEq, Repr

/-- Payload field step of `from_string`: token `"None"` or a float parsed
with `.unwrap()` (panic on malformed). -/
def readPayloadTok : List Str → PResult (Option F64Lit × List Str)
  | [] => .ok (none, [])
  | tok :: rest =>
    if tok = lit ("None") then .ok (none, rest)
    else
      match parseF64 tok with
      | some p => .ok (some p, rest)
      | none => .panicked

/-- `max_ids` field step: token `"None"` or `TablesIdInfo::from_string`
(which panics on malformed pairs). -/
def readMaxIdsTok : List Str → PResult (Option TablesIdInfoM × List Str)
  | [] => .ok (none, [])
  | tok :: rest =>
    if tok = lit ("None") then .ok (none, rest)
    else
      match tablesFromStr tok with
      | .ok t => .ok (some t, rest)
      | .panicked => .panicked

/-- `node_info` field step: token `"None"` or `"ip:port".parse().unwrap()`
(panic when the token has no colon). -/
def readNodeTok : List Str → PResult (Option NodeInfoM × List Str)
  | [] => .ok (none, [])
  | tok :: rest =>
    if tok = lit ("None") then .ok (none, rest)
    else
      match nodeInfoFromStr tok with
      | some ni => .ok (some ni, rest)
      | none => .panicked

/-- Query field step: token `"None"` or the remaining tokens re-joined with
single spaces (each followed by one space) and cut at the first `';'`. -/
def readQueryTok : List Str → Option Str
  | [] => none
  | tok :: rest =>
    if tok = lit ("None") then none
    else
      let glued := (tok :: rest).foldr (fun p acc => p ++ ' ' :: acc) []
      match splitOnChar ';' glued with
      | seg :: _ => some seg
      | [] => some []

/-- `Message::from_string`: whitespace-tokenize, then read the five
positional fields; an unknown (or absent) type token is
`Err("Invalid message type")`. -/
def MessageM.from_string (input : Str) : MsgResult :=
  match splitWs input with
  | [] => .err (lit ("Invalid message type"))
  | t0 :: r0 =>
    match parseMessageType t0 with
    | none => .err (lit ("Invalid message type"))
    | some mt =>
      match readPayloadTok r0 with
      | .panicked => .panicked
      | .ok (payload, r1) =>
        match readMaxIdsTok r1 with
        | .panicked => .panicked
        | .ok (max_ids, r2) =>
          match readNodeTok r2 with
          | .panicked => .panicked
          | .ok (node_info, r3) =>
            .ok ⟨mt, payload, max_ids, node_info, readQueryTok r3⟩

/-- `MessageData` (messages/message_data.rs): the per-type view that
`Message::get_data` extracts. -/
structure MessageDataM where
  payload : Option F64Lit
  max_ids : Option TablesIdInfoM
  node_info : Option NodeInfoM
  query : Option Str
deriving DecidableEq, Repr

/-- `Message::get_data`. -/
def MessageM.get_data (m : MessageM) : MessageDataM :=
  match m.message_type with
  | .InitConnection | .RouterId =>
    match m.node_info with
    | some ni => ⟨none, none, some ni, none⟩
    | none => ⟨none, none, none, none⟩
  | .MemoryUpdate | .Agreed =>
    match m.payload, m.max_ids with
    | some p, some t => ⟨some p, some t, none, none⟩
    | _, _ => ⟨none, none, none, none⟩
  | .Query =>
    match m.query_data, m.node_info with
    | some q, some ni => ⟨none, none, some ni, some q⟩
    | _, _ => ⟨none, none, none, none⟩
  | .QueryResponse =>
    match m.query_data with
    | some q => ⟨none, none, none, some q⟩
    | none => ⟨none, none, none, none⟩
  | _ => ⟨none, none, none, none⟩

/-! ## Query helpers (`utils/queries.rs`) -/

/-- `query_is`: case-insensitive prefix test against an (uppercase)
keyword. -/
def query_is (query : Str) (query_type : Str) : Bool :=
  query_type.isPrefixOf (toUpperStr query)

def query_is_insert (query : Str) : Bool := query_is query (lit ("INSERT"))

def query_is_select (query : Str) : Bool := query_is query (lit ("SELECT"))

/-- `query_affects_memory_state`: begins with INSERT, DELETE, DROP, UPDATE
or CREATE (case-insensitive). -/
def query_affects_memory_state (query : Str) : Bool :=
  query_is query (lit ("INSERT")) || query_is query (lit ("DELETE")) ||
    query_is query (lit ("DROP")) || query_is query (lit ("UPDATE")) ||
    query_is query (lit ("CREATE"))

/-- `get_table_name_behind_keyword`: find the keyword in the uppercased
query, take the next whitespace token of the original query after it. -/
def get_table_name_behind_keyword (query : Str) (keyword : Str) : Option Str :=
  match findSub keyword (toUpperStr query) with
  | none => none
  | some fromIndex =>
    match splitWs (query.drop (fromIndex + keyword.length)) with
    | tok :: _ => some tok
    | [] => none

/-- `get_table_name_from_query`: first keyword among FROM, UPDATE, INTO,
TABLE; strip one trailing `';'`. -/
def get_table_name_from_query (query : Str) : Option Str :=
  match (get_table_name_behind_keyword query (lit ("FROM"))).orElse
      (fun _ => (get_table_name_behind_keyword query (lit ("UPDATE"))).orElse
        (fun _ => (get_table_name_behind_keyword query (lit ("INTO"))).orElse
          (fun _ => get_table_name_behind_keyword query (lit ("TABLE"))))) with
  | none => none
  | some t =>
    if t.getLast? = some ';' then some (t.take (t.length - 1)) else some t

/-- `get_id_index`: position right after the first of the four literal
`WHERE ID=` forms (checked in source order, both-spaces form first). -/
def get_id_index (query : Str) : Option Nat :=
  let up := toUpperStr query
  let sub1 := lit ("WHERE ID = ")
  let sub2 := lit ("WHERE ID =")
  let sub3 := lit ("WHERE ID= ")
  let sub4 := lit ("WHERE ID=")
  match findSub sub1 up with
  | some i => some (i + sub1.length)
  | none =>
    match findSub sub2 up with
    | some i => some (i + sub2.length)
    | none =>
      match findSub sub3 up with
      | some i => some (i + sub3.length)
      | none =>
        match findSub sub4 up with
        | some i => some (i + sub4.length)
        | none => none

/-- `get_trimmed_id`: the rest of the query from the match, trimmed, with
one trailing `';'` stripped. -/
def get_trimmed_id (query : Str) (fromIndex : Nat) : Str :=
  let id := trimStr (query.drop fromIndex)
  if id.getLast? = some ';' then id.take (id.length - 1) else id

/-- `get_id_if_exists`: `None` when no `WHERE ID=` form occurs; otherwise
the extracted token is parsed with `.parse::<i64>().unwrap()` — a panic
when the token is not an integer. -/
def get_id_if_exists (query : Str) : PResult (Option Int) :=
  match get_id_index query with
  | none => .ok none
  | some idx =>
    match parseI64 (get_trimmed_id query idx) with
    | some n => .ok (some n)
    | none => .panicked

/-- `format_query_with_new_id`: splice the new id over the extracted id's
character span (panics — `unwrap` — when no `WHERE ID=` form occurs). -/
def format_query_with_new_id (query : Str) (new_id : Int) : PResult Str :=
  match get_id_index query with
  | none => .panicked
  | some idx =>
    let id := get_trimmed_id query idx
    .ok (query.take idx ++ intToStr new_id ++ query.drop (idx + id.length))

/-! ## Rows and response formatting (`utils/queries.rs`, lower half)

A `Row` of the backend oracle is modelled as its list of columns, each a
column name paired with the textual value the `try_get` chain
(String / i32 / f64 / Decimal) renders for it. -/

abbrev RowM : Type := List (Str × Str)

/-- `get_column_names`: names joined, each followed by `" | "`. -/
def get_column_names (columns : List Str) : Str :=
  columns.foldr (fun name acc => name ++ ' ' :: '|' :: ' ' :: acc) []

/-- `Row::convert_to_string_with_offset`: each cell followed by `" | "`;
a cell whose column is named `id` is reparsed as `i64` (`unwrap` — panic on
a non-integer cell) and printed with the offset added. -/
def convert_to_string_with_offset (row : RowM) (offset : Int) : PResult Str :=
  match row with
  | [] => .ok []
  | (name, val) :: rest =>
    match convert_to_string_with_offset rest offset with
    | .panicked => .panicked
    | .ok tail =>
      if name = lit ("id") then
        match parseI64 val with
        | some v => .ok (intToStr (v + offset) ++ ' ' :: '|' :: ' ' :: tail)
        | none => .panicked
      else .ok (val ++ ' ' :: '|' :: ' ' :: tail)

/-- Rows of one shard under `format_rows_with_offset`: each row rendered
with the shard's offset, each followed by `'\x00'`. -/
def rowsWithOffsetStr (rows : List RowM) (offset : Int) : PResult Str :=
  match rows with
  | [] => .ok []
  | row :: rest =>
    match convert_to_string_with_offset row offset with
    | .panicked => .panicked
    | .ok s =>
      match rowsWithOffsetStr rest offset with
      | .panicked => .panicked
      | .ok tail => .ok (s ++ '\x00' :: tail)

/-- `format_rows_with_offset`: header row from `rows_offset[0].0[0]`
(an out-of-bounds panic when either list is empty), then every shard's
rows with that shard's offset, `'\x00'`-separated. -/
def format_rows_with_offset (rows_offset : List (List RowM × Int)) : PResult Str :=
  match rows_offset with
  | [] => .panicked
  | (rows0, _) :: _ =>
    match rows0 with
    | [] => .panicked
    | row0 :: _ =>
      let header := get_column_names (row0.map Prod.fst)
      let body : PResult Str := rows_offset.foldr
        (fun (rows, offset) acc =>
          match acc with
          | .panicked => PResult.panicked
          | .ok tail =>
            match rowsWithOffsetStr rows offset with
            | .panicked => PResult.panicked
            | .ok s => PResult.ok (s ++ tail))
        (.ok [])
      match body with
      | .panicked => .panicked
      | .ok b => .ok (header ++ '\x00' :: b)

/-! ## Shard manager (`node/shard_manager.rs` over Rust's `BinaryHeap`)

`ShardManagerObject` compares by `key` only (its `PartialEq`/`Ord` ignore
`value`).  The heap operations are the algorithms of
`alloc::collections::binary_heap`: `push` appends and sifts up;
`pop` removes the last element, swaps it into the root and runs
`sift_down_to_bottom` (hole walks to the bottom along the greater child —
the right child when the children compare equal — then sifts up). -/

structure SMObj where
  key : ℚ
  value : Str
deriving DecidableEq, Repr

/-- Element at index `i` (a garbage default beyond the end; the algorithms
only index in bounds). -/
def getO (l : List SMObj) (i : Nat) : SMObj := l.getD i ⟨0, []⟩

/-- Key at index `i`. -/
def keyO (l : List SMObj) (i : Nat) : ℚ := (getO l i).key

/-- `BinaryHeap::sift_up` with `start = 0` (the only start the crate's
call sites use), fueled by `pos` (the hole index strictly decreases).
`elt` is the element held in the hole at `pos`. -/
def siftUpGo : Nat → SMObj → List SMObj → Nat → List SMObj
  | 0, elt, d, pos => d.set pos elt
  | fuel + 1, elt, d, pos =>
    if 0 < pos then
      let parent := (pos - 1) / 2
      if elt.key ≤ (getO d parent).key then d.set pos elt
      else siftUpGo fuel elt (d.set pos (getO d parent)) parent
    else d.set pos elt

/-- `BinaryHeap::push`: append, then sift the new element up from the end. -/
def heapPush (d : List SMObj) (x : SMObj) : List SMObj :=
  siftUpGo d.length x (d ++ [x]) d.length

/-- Loop of `BinaryHeap::sift_down_to_bottom`: walk the hole down along the
greater child (right child when equal) until it has at most the last
position as a child; returns the array and the final hole position.
Fueled by `endd` (the hole index strictly increases below `endd`). -/
def siftDownGo : Nat → List SMObj → Nat → Nat → List SMObj × Nat
  | 0, d, hole, _ => (d, hole)
  | fuel + 1, d, hole, endd =>
    let child := 2 * hole + 1
    if child ≤ endd - 2 then
      let c := if keyO d child ≤ keyO d (child + 1) then child + 1 else child
      siftDownGo fuel (d.set hole (getO d c)) c endd
    else if child = endd - 1 then (d.set hole (getO d child), child)
    else (d, hole)

/-- `BinaryHeap::sift_down_to_bottom` at the root, followed by the final
`sift_up` that settles `elt` (the element held in the hole). -/
def siftDownToBottom (d : List SMObj) (elt : SMObj) : List SMObj :=
  let p := siftDownGo d.length d 0 d.length
  siftUpGo p.2 elt p.1 p.2

/-- `BinaryHeap::pop`: remove the last element; if the heap stays nonempty,
swap it into the root and sift down to the bottom.  Returns the old root. -/
def heapPop (d : List SMObj) : Option (SMObj × List SMObj) :=
  match d with
  | [] => none
  | _ :: _ =>
    let item := getO d (d.length - 1)
    let rest := d.take (d.length - 1)
    if rest = [] then some (item, [])
    else some (getO d 0, siftDownToBottom rest item)

/-- `ShardManager::add_shard`: push `(free_pct, shard_id)`. -/
def add_shard (heap : List SMObj) (value : ℚ) (shard_id : Str) : List SMObj :=
  heapPush heap ⟨value, shard_id⟩

/-- `ShardManager::peek`: the root's `value`, `None` when empty. -/
def smPeek (heap : List SMObj) : Option Str :=
  match heap with
  | [] => none
  | o :: _ => some o.value

/-- Rebuild loop of `ShardManager::delete`: pop every element from the old
heap, pushing all whose `value` differs from `shard_id` into a fresh heap.
Fuel `= old.length` runs the loop to exhaustion. -/
def rebuildFuel : Nat → List SMObj → List SMObj → Str → List SMObj
  | 0, _, fresh, _ => fresh
  | fuel + 1, old, fresh, shard_id =>
    match heapPop old with
    | none => fresh
    | some (x, old') =>
      rebuildFuel fuel old' (if x.value = shard_id then fresh else heapPush fresh x) shard_id

/-- `ShardManager::delete`: `self.peek().unwrap()` — a panic on the empty
heap; pop once when the target is on top, else pop-filter-rebuild. -/
def smDelete (heap : List SMObj) (shard_id : Str) : PResult (List SMObj) :=
  match smPeek heap with
  | none => .panicked
  | some top =>
    if shard_id = top then
      match heapPop heap with
      | some (_, h') => .ok h'
      | none => .ok heap
    else .ok (rebuildFuel heap.length heap [] shard_id)

/-- `ShardManager::update_shard_memory`: delete then re-insert. -/
def update_shard_memory (heap : List SMObj) (memory : ℚ) (shard_id : Str) :
    PResult (List SMObj) :=
  (smDelete heap shard_id).map (fun h => add_shard h memory shard_id)

/-- One shard-manager operation of the claims' vocabulary. -/
inductive SMOp where
  | add (k : ℚ) (id : Str)
  | upd (k : ℚ) (id : Str)
deriving Repr

/-- Run a sequence of `add_shard`/`update_shard_memory` operations from a
given manager state; a panic aborts the rest of the sequence. -/
def runOpsFrom : List SMOp → List SMObj → PResult (List SMObj)
  | [], h => .ok h
  | .add k id :: ops, h => runOpsFrom ops (add_shard h k id)
  | .upd k id :: ops, h =>
    match update_shard_memory h k id with
    | .panicked => .panicked
    | .ok h' => runOpsFrom ops h'

/-- Run a sequence of `add_shard`/`update_shard_memory` operations from the
empty `ShardManager`. -/
def runOps (ops : List SMOp) : PResult (List SMObj) :=
  runOpsFrom ops []

/-! ## Router (`node/router.rs`) -/

/-- Router-side state that the dispatch path reads: the backend-session
`IndexMap` keys in registration order, the `ShardManager` heap, and the
per-shard max-id snapshots. -/
structure RouterSt where
  shardsOrder : List Str
  heap : List SMObj
  sideMaxIds : List (Str × TablesIdInfoM)

/-- Modelled from the spec: `ShardManager::get_max_ids_for_shard_table` is
called from the router but its definition is absent from `src/`; §4.3 of
the spec gives it as the lookup `shard_id → TablesIdInfo → table → i64?`
into the side mapping maintained by `save_max_ids_for_shard`. -/
def get_max_ids_for_shard_table (st : RouterSt) (shard_id : Str) (table : Str) :
    Option Int :=
  match st.sideMaxIds.lookup shard_id with
  | none => none
  | some tbl => indexMapGet tbl table

/-- Result triple of `Router::get_data_needed_from`: target shards,
`requires_memory_update`, and the (possibly rewritten) query. -/
abbrev RouteResult : Type := List Str × Bool × Str

/-- Shard-walk loop of `Router::get_specific_shard_with`: iterate the
registered shards, skipping shards with no known max id for the table,
subtracting known max ids while the id exceeds them; the first fit gets
the rewritten query. -/
def specific_shard_loop (st : RouterSt) (table : Str) (query : Str) :
    List Str → Int → PResult RouteResult
  | [], _ =>
    .ok (st.shardsOrder, query_affects_memory_state query, query)
  | shard_id :: rest, id =>
    match get_max_ids_for_shard_table st shard_id table with
    | none => specific_shard_loop st table query rest id
    | some max_id =>
      if id > max_id then specific_shard_loop st table query rest (id - max_id)
      else
        (format_query_with_new_id query id).map
          (fun fq => ([shard_id], query_affects_memory_state query, fq))

/-- `Router::get_specific_shard_with`: fan out if no table name can be
extracted, else walk the shards in registration order. -/
def get_specific_shard_with (st : RouterSt) (id : Int) (query : Str) :
    PResult RouteResult :=
  match get_table_name_from_query query with
  | none => .ok (st.shardsOrder, query_affects_memory_state query, query)
  | some table => specific_shard_loop st table query st.shardsOrder id

/-- `Router::get_data_needed_from`: id-predicate branch first (its
extractor can panic), then the INSERT branch (`peek().unwrap()` — panic on
an empty manager), else fan-out. -/
def get_data_needed_from (st : RouterSt) (query : Str) : PResult RouteResult :=
  match get_id_if_exists query with
  | .panicked => .panicked
  | .ok (some id) => get_specific_shard_with st id query
  | .ok none =>
    if query_is_insert query then
      match smPeek st.heap with
      | none => .panicked
      | some shard => .ok ([shard], true, query)
    else .ok (st.shardsOrder, query_affects_memory_state query, query)

/-- Offset-assignment loop of `Router::format_response`: each responding
shard's rows are paired with `last_offset`, and `last_offset` is then
REPLACED by that shard's own max id (not accumulated). -/
def format_response_loop (st : RouterSt) (table : Str) :
    List (Str × List RowM) → Int → Option (List (List RowM × Int))
  | [], _ => some []
  | (shard_id, rows) :: rest, last_offset =>
    match get_max_ids_for_shard_table st shard_id table with
    | none => none
    | some offset =>
      match format_response_loop st table rest offset with
      | none => none
      | some tail => some ((rows, last_offset) :: tail)

/-- `Router::format_response`: recover the table name, assign offsets in
response order, and render.  Both failure `eprintln` paths return the
empty string. -/
def format_response (st : RouterSt) (shards_responses : List (Str × List RowM))
    (query : Str) : PResult Str :=
  match get_table_name_from_query query with
  | none => .ok []
  | some table =>
    match format_response_loop st table shards_responses 0 with
    | none => .ok []
    | some rows_offset => format_rows_with_offset rows_offset

/-! ## Memory manager (`node/memory_manager.rs`)

Finite `f64` arithmetic is modelled exactly over `ℚ`; the one operation
that can leave the finite range is the final division (`0.0/0.0` is `NaN`,
`x/0.0` a signed infinity), so its result is an `F64X`.  `total`/`avail`
are the `total_space`/`available_space` KiB figures derived from `statvfs`
(`0 ≤ avail ≤ total` for any real reading).  `statOk` models whether the
`statvfs` call itself succeeded. -/

/-- An `f64` value: `NaN`, a signed infinity, or a finite value. -/
inductive F64X where
  | nan
  | inf (neg : Bool)
  | num (q : ℚ)
deriving DecidableEq, Repr

/-- `f64` division of finite values: a zero denominator gives `NaN` for a
zero numerator and a signed infinity otherwise. -/
def fdiv (a b : ℚ) : F64X :=
  if b = 0 then (if a = 0 then .nan else .inf (decide (a < 0))) else .num (a / b)

/-- Multiplication of the division's result by the finite literal
`100.0`. -/
def fmul100 : F64X → F64X
  | .nan => .nan
  | .inf s => .inf s
  | .num q => .num (q * 100)

/-- The `f64` comparison `percentage > 100.0`: false at `NaN` and `-inf`,
true at `+inf`. -/
def fgt100 : F64X → Bool
  | .nan => false
  | .inf s => !s
  | .num q => decide (q > 100)

/-- `MemoryManager::get_available_memory_percentage`. -/
def get_available_memory_percentage (unavailable_memory_perc : ℚ)
    (statOk : Bool) (total avail : ℚ) : Option F64X :=
  if unavailable_memory_perc = 100 then some (.num 0)
  else if statOk then
    let threshold_size := total * (unavailable_memory_perc / 100)
    if threshold_size > avail then some (.num 0)
    else
      let usable_available_space := avail - threshold_size
      let usable_total_space := total - threshold_size / 100
      let percentage := fmul100 (fdiv usable_available_space usable_total_space)
      if fgt100 percentage then some (.num 0) else some percentage
  else none

/-! ## Shard (`node/shard.rs`) -/

/-- Shard state read and written by the control-message handler. -/
structure ShardSt where
  router_info : Option NodeInfoM
  available_memory_perc : F64Lit
  tables_max_id : TablesIdInfoM
deriving DecidableEq, Repr

/-- The shard's backend and filesystem, as the blocking oracle of §1:
the tables of the public schema, the `SELECT MAX(id)` cell per table
(`none`: the query failed or returned no rows; `some none`: a NULL cell,
read back as `0`; `some (some v)`: the max id), and the fresh
`available_pct` a `MemoryManager::update` would compute (`none`:
`StatError`, keeping the previous value). -/
structure ShardEnv where
  tables : List Str
  maxIdCell : Str → Option (Option Int)
  newAvail : Option F64Lit

/-- `Shard::set_max_ids`: insert a max id for every table whose
`SELECT MAX(id)` query yields rows; a NULL cell records `0`. -/
def set_max_ids (st : ShardSt) (env : ShardEnv) : TablesIdInfoM :=
  env.tables.foldl
    (fun acc table =>
      match env.maxIdCell table with
      | none => acc
      | some cell => indexMapInsert acc table (cell.getD 0))
    st.tables_max_id

/-- `Shard::update`: refresh the max ids, then the memory manager
(keeping the old percentage on `StatError`). -/
def shard_update (st : ShardSt) (env : ShardEnv) : ShardSt :=
  let st1 := { st with tables_max_id := set_max_ids st env }
  match env.newAvail with
  | some p => { st1 with available_memory_perc := p }
  | none => st1

/-- `Shard::get_agreed_connection`: an `AGREED` reply from the CURRENTLY
STORED percentage and max-id snapshot (no refresh). -/
def get_agreed_connection (st : ShardSt) : Str :=
  MessageM.to_string (MessageM.new_agreed st.available_memory_perc st.tables_max_id)

/-- `Shard::get_memory_update_message`: refresh first, then reply
`MEMORY_UPDATE` from the refreshed state. -/
def get_memory_update_message (st : ShardSt) (env : ShardEnv) : ShardSt × Str :=
  let st' := shard_update st env
  (st', MessageM.to_string
    (MessageM.new_memory_update st'.available_memory_perc st'.tables_max_id))

/-- `Shard::get_response_message`: decode (a decode error drops the
message), then dispatch on the type.  `InitConnection` records the sender
(`get_data().node_info.unwrap()` — panic when absent) and replies from the
stored state; `AskMemoryUpdate` refreshes and replies; `GetRouter` answers
from `router_info`; anything else is ignored. -/
def shard_get_response_message (st : ShardSt) (env : ShardEnv) (input : Str) :
    PResult (ShardSt × Option Str) :=
  if input = [] then .ok (st, none)
  else
    match MessageM.from_string input with
    | .err _ => .ok (st, none)
    | .panicked => .panicked
    | .ok msg =>
      match msg.message_type with
      | .InitConnection =>
        match (MessageM.get_data msg).node_info with
        | none => .panicked
        | some ni =>
          let st' := { st with router_info := some ni }
          .ok (st', some (get_agreed_connection st'))
      | .AskMemoryUpdate =>
        let p := get_memory_update_message st env
        .ok (p.1, some p.2)
      | .GetRouter =>
        match st.router_info with
        | some ri =>
          .ok (st, some (MessageM.to_string (MessageM.new_router_id ri)))
        | none =>
          .ok (st, some (MessageM.to_string MessageM.new_no_router_data))
      | _ => .ok (st, none)

/-! ## Spec-side definitions (used to state the claims against the code) -/

/-- Spec wording of the targeted-id walk (§4.5): walk shards in
registration order; for each shard with a known max id `max_k`, if
`N > max_k` subtract and continue, else the shard is the target with the
reduced `N`; `none` when the walk exhausts. -/
def walkSpec (lookup : Str → Option Int) : List Str → Int → Option (Str × Int)
  | [], _ => none
  | s :: rest, n =>
    match lookup s with
    | none => walkSpec lookup rest n
    | some maxK => if n > maxK then walkSpec lookup rest (n - maxK) else some (s, n)

/-- Spec wording of "the query begins with KEYWORD (case-insensitive)". -/
def beginsWithKeyword (q : Str) (kw : String) : Prop :=
  lit kw <+: toUpperStr q

/-- The array heap property of `alloc`'s `BinaryHeap` under the
key-only order of `ShardManagerObject`: every non-root element's key is at
most its parent's. -/
def heapProp (d : List SMObj) : Prop :=
  ∀ j, 0 < j → j < d.length → keyO d j ≤ keyO d ((j - 1) / 2)

/-- Heap property away from a hole at `pos`: every parent/child pair not
involving the hole is ordered. -/
def upA (d : List SMObj) (pos : Nat) : Prop :=
  ∀ j, 0 < j → j < d.length → j ≠ pos → (j - 1) / 2 ≠ pos →
    keyO d j ≤ keyO d ((j - 1) / 2)

/-- `sift_up` side condition: the children of the hole at `pos` are at most
the held element `elt` and (when the hole is not the root) at most the
hole's parent. -/
def upB (d : List SMObj) (pos : Nat) (elt : SMObj) : Prop :=
  ∀ j, 0 < j → j < d.length → (j - 1) / 2 = pos →
    keyO d j ≤ elt.key ∧ (0 < pos → keyO d j ≤ keyO d ((pos - 1) / 2))

/-- `sift_down` side condition: the children of the hole at `pos` are at
most the hole's parent (when the hole is not the root). -/
def dnB (d : List SMObj) (pos : Nat) : Prop :=
  ∀ j, 0 < j → j < d.length → (j - 1) / 2 = pos → 0 < pos →
    keyO d j ≤ keyO d ((pos - 1) / 2)

/-- Well-formed `TablesIdInfo` entry for the wire: the table name is free
of `':'`, `','` and whitespace, and the value is an `i64`. -/
def wfTableEntry (p : Str × Int) : Prop :=
  (∀ c ∈ p.1, ¬(c = ':' ∨ c = ',' ∨ isWsChar c = true)) ∧ i64InRange p.2

/-- Well-formed `NodeInfo` for the wire: `ip` and `port` free of `':'` and
whitespace. -/
def wfNodeInfo (ni : NodeInfoM) : Prop :=
  (∀ c ∈ ni.ip, ¬(c = ':' ∨ isWsChar c = true)) ∧
    (∀ c ∈ ni.port, ¬(c = ':' ∨ isWsChar c = true))

instance (p : Str × Int) : Decidable (wfTableEntry p) := by
  unfold wfTableEntry; infer_instance

instance (ni : NodeInfoM) : Decidable (wfNodeInfo ni) := by
  unfold wfNodeInfo; infer_instance

/-- Well-formed query-free message: no query text; a present `max_ids` is a
nonempty map with distinct well-formed keys; a present `node_info` is
well-formed. -/
def wfMessage (m : MessageM) : Prop :=
  m.query_data = none ∧
    (∀ l, m.max_ids = some l →
      l ≠ [] ∧ (l.map Prod.fst).Nodup ∧ ∀ p ∈ l, wfTableEntry p) ∧
    (∀ ni, m.node_info = some ni → wfNodeInfo ni)

/-! ## Concrete instances used by the claim theorems -/

/-- The targeted SELECT of spec scenario 5. -/
def exQueryId7 : Str := lit ("SELECT * FROM test_table WHERE id = 7;")

/-- Two-shard router directory of spec scenarios 4/5: shards `5433`, `5434`
in registration order, with `max_ids[5433][test_table] = 5` and
`max_ids[5434][test_table] = 3`. -/
def exRouterAB : RouterSt :=
  { shardsOrder := [lit ("5433"), lit ("5434")]
    heap := [⟨50, lit ("5433")⟩, ⟨40, lit ("5434")⟩]
    sideMaxIds :=
      [(lit ("5433"), [(lit ("test_table"), 5)]),
       (lit ("5434"), [(lit ("test_table"), 3)])] }

/-- A targeted SELECT with TWO spaces after the `=` — still matched by the
both-spaces `WHERE ID = ` form, with the residual ` 9` trimming to `9`. -/
def exQuerySpaced : Str := lit ("SELECT * FROM t WHERE id =  9;")

/-- Two-shard router directory for the spliced-rewrite counterexample:
`max_ids[5433][t] = 5`, `max_ids[5434][t] = 9`. -/
def exRouterSp : RouterSt :=
  { shardsOrder := [lit ("5433"), lit ("5434")]
    heap := [⟨50, lit ("5433")⟩, ⟨40, lit ("5434")⟩]
    sideMaxIds :=
      [(lit ("5433"), [(lit ("t"), 5)]),
       (lit ("5434"), [(lit ("t"), 9)])] }

/-- Three-shard router directory: `max_ids` for table `t` are `5`, `3`, `2`
in registration order. -/
def exRouterABC : RouterSt :=
  { shardsOrder := [lit ("A"), lit ("B"), lit ("C")]
    heap := [⟨50, lit ("A")⟩, ⟨40, lit ("B")⟩, ⟨30, lit ("C")⟩]
    sideMaxIds :=
      [(lit ("A"), [(lit ("t"), 5)]),
       (lit ("B"), [(lit ("t"), 3)]),
       (lit ("C"), [(lit ("t"), 2)])] }

/-- Fan-out SELECT responses: each of the three shards returns one row with
shard-local id `1`. -/
def exRespABC : List (Str × List RowM) :=
  [(lit ("A"), [[(lit ("id"), lit ("1"))]]),
   (lit ("B"), [[(lit ("id"), lit ("1"))]]),
   (lit ("C"), [[(lit ("id"), lit ("1"))]])]

/-- Shard-manager operation sequence exhibiting the tie-break behaviour:
four equal-key shards `a b c d`, a larger one `e`, then two updates of `e`
only. -/
def exOps : List SMOp :=
  [.add 2 (lit ("a")), .add 2 (lit ("b")), .add 2 (lit ("c")), .add 2 (lit ("d")),
   .add 3 (lit ("e")), .upd 3 (lit ("e")), .upd 0 (lit ("e"))]

/-- A shard whose stored snapshot (table `t1`) predates a schema change. -/
def exShardSt : ShardSt := ⟨none, ⟨false, 77, []⟩, [(lit ("t1"), 5)]⟩

/-- The shard's backend at message time: the public schema now holds only
`t2` (max id 7), and fresh stats would report `60`. -/
def exShardEnv : ShardEnv :=
  ⟨[lit ("t2")], fun t => if t = lit ("t2") then some (some 7) else none,
    some ⟨false, 60, []⟩⟩

/-- A well-formed `INIT_CONNECTION` wire line from router `1.2.3.4:9999`. -/
def exInitWire : Str := lit ("INIT_CONNECTION None None 1.2.3.4:9999 None\n")

/-! # Theorems -/

/-! ## Claim C1 — response merging uses only the previous shard's max id -/

/-- C1.  The merged fan-out SELECT does contain one data row per source row,
but the id offset applied to shard `k` is only `max_ids[k-1][T]`, not the
cumulative `Σ_{j<k} max_ids[j][T]`: with three shards whose max ids for
table `t` are `5`, `3`, `2` and one local row `id = 1` on each, the merged
rows read `1`, `6` and `4` — the claim's cumulative offset would make the
third row `9` (`1 + 5 + 3`).  (`format_response` executes
`last_offset = offset`, replacing instead of accumulating.) -/
theorem format_response_offset_uses_only_previous_shard :
    format_response exRouterABC exRespABC (lit ("SELECT * FROM t;")) =
      .ok (lit ("id | \x001 | \x006 | \x004 | \x00")) ∧
    format_response exRouterABC exRespABC (lit ("SELECT * FROM t;")) ≠
      .ok (lit ("id | \x001 | \x006 | \x009 | \x00")) := by
  decide

/-! ## Claim C10 — the id extractor panics on a non-integer token -/

/-- C10.  A query whose `WHERE id =` token is not an integer does NOT fall
through to fan-out: `get_id_if_exists` runs `.parse::<i64>().unwrap()` on
the token and panics, and the router's dispatch panics with it. -/
theorem get_id_if_exists_panics_on_non_integer_id :
    get_id_if_exists (lit ("SELECT * FROM test_table WHERE id = 'a';")) =
      .panicked ∧
    get_data_needed_from exRouterAB
      (lit ("SELECT * FROM test_table WHERE id = 'a';")) = .panicked := by
  decide

/-! ## Claim C4 — message round trip -/

/-- C4 counterexample.  A `QUERY` message built by `new_query` with its
sender and query text populated does not survive the round trip: decoding
re-joins the whitespace-split tokens and cuts at the first `';'`, so
`"SELECT * FROM test_table;"` comes back as `"SELECT * FROM test_table"`. -/
theorem message_roundtrip_fails_on_query_semicolon :
    MessageM.from_string (MessageM.to_string
        (MessageM.new_query (some ⟨lit ("127.0.0.1"), lit ("5435")⟩)
          (lit ("SELECT * FROM test_table;")))) ≠
      MsgResult.ok (MessageM.new_query (some ⟨lit ("127.0.0.1"), lit ("5435")⟩)
        (lit ("SELECT * FROM test_table;"))) := by
  decide

/-! ## Claim C5 — decode failure modes -/

/-- C5 counterexample.  A malformed numeric payload does not fail the
decode with an error: `from_string` runs `payload.parse().unwrap()` and
panics. -/
theorem from_string_panics_on_malformed_payload :
    MessageM.from_string (lit ("AGREED abc None None None")) =
      MsgResult.panicked := by
  decide

/-! ## Claim C7 — update on an absent shard id -/

/-- C7 counterexample.  On the empty `ShardManager`,
`update_shard_memory(50, "s")` does not behave like `add_shard`: its
`delete` runs `self.peek().unwrap()` on the empty heap and panics, while
`add_shard` succeeds. -/
theorem update_shard_memory_panics_on_empty_manager :
    update_shard_memory [] 50 (lit ("s")) = .panicked ∧
    add_shard [] 50 (lit ("s")) = [⟨50, lit ("s")⟩] := by
  decide

/-! ## Claim C8 — peek and tie-breaking -/

/-- C8 counterexample.  After `exOps` — where `a`, `b`, `c`, `d` are
inserted with equal key `2` in that order and only `e` is ever updated —
the heap still contains `a` and `b` with maximal key `2`, yet `peek`
returns `b`, not the earlier-inserted `a`: ties are not broken by
insertion order. -/
theorem peek_tie_not_broken_by_insertion_order :
    runOps exOps =
      .ok [⟨2, lit ("b")⟩, ⟨2, lit ("c")⟩, ⟨2, lit ("a")⟩, ⟨2, lit ("d")⟩,
        ⟨0, lit ("e")⟩] ∧
    smPeek [⟨2, lit ("b")⟩, ⟨2, lit ("c")⟩, ⟨2, lit ("a")⟩, ⟨2, lit ("d")⟩,
        ⟨0, lit ("e")⟩] = some (lit ("b")) ∧
    lit ("b") ≠ lit ("a") := by
  decide

/-! ## Claim C9 — INIT_CONNECTION handling -/

/-- C9 counterexample.  Handling `INIT_CONNECTION` records the router but
performs NO refresh: the `AGREED` reply carries the stored snapshot
(`t1:5`, payload `77`) even though the public schema at that instant holds
exactly `t2` and fresh stats would report `60`; the stored max-id keys
differ from the schema's tables.  (Contrast `ASK_MEMORY_UPDATE`, whose
handler refreshes first.) -/
theorem init_connection_reply_carries_stale_tables :
    shard_get_response_message exShardSt exShardEnv exInitWire =
      .ok (⟨some ⟨lit ("1.2.3.4"), lit ("9999")⟩, ⟨false, 77, []⟩,
            [(lit ("t1"), 5)]⟩,
        some (lit ("AGREED 77 t1:5 None None\n"))) ∧
    [(lit ("t1"), (5 : Int))].map Prod.fst ≠ exShardEnv.tables := by
  decide

/-! ## Claim C6 — memory manager bounds -/

/-- C6 counterexample.  At `total = 0` (so `avail = 0`, a point the
claim's `0 ≤ available ≤ total` scope admits) with `reserved_pct = 50`,
the threshold guard does not fire (`0 > 0` is false), the percentage is
`0.0 / 0.0 = NaN`, and `NaN > 100.0` is false — so `Some(NaN)` is
returned, which is not a finite value in `[0, 100]`. -/
theorem available_memory_percentage_nan_on_zero_total :
    get_available_memory_percentage 50 true 0 0 = some F64X.nan ∧
    F64X.nan ≠ F64X.num 0 := by
  refine ⟨?_, fun h => F64X.noConfusion h⟩
  simp only [get_available_memory_percentage, fdiv, fmul100, fgt100]
  norm_num

/-- C6 amended.  For `reserved_pct ∈ [0, 100]`, a successful `statvfs`
reading with `0 ≤ available ≤ total` and a NONZERO total, the computed
percentage is a finite value in `[0, 100]`; `reserved_pct = 100` gives
`0`; a reserved threshold exceeding the free space gives `0`.  At
`total = 0` the bound fails: the division `0.0/0.0` yields `NaN`, which
escapes the `> 100.0` guard
(`available_memory_percentage_nan_on_zero_total`). -/
theorem available_memory_percentage_bounds
    (resv total avail : ℚ) (h0 : 0 ≤ resv) (h100 : resv ≤ 100)
    (ha : 0 ≤ avail) (hat : avail ≤ total) (htpos : 0 < total) :
    (∀ p, get_available_memory_percentage resv true total avail = some p →
      ∃ q, p = F64X.num q ∧ 0 ≤ q ∧ q ≤ 100) ∧
    (resv = 100 →
      get_available_memory_percentage resv true total avail = some (F64X.num 0)) ∧
    (total * (resv / 100) > avail →
      get_available_memory_percentage resv true total avail = some (F64X.num 0)) := by
  have hden : 0 < total - total * (resv / 100) / 100 := by
    have h1 : total - total * (resv / 100) / 100 = total * (10000 - resv) / 10000 := by
      ring
    rw [h1]
    exact div_pos (mul_pos htpos (by linarith)) (by norm_num)
  have hfd : fdiv (avail - total * (resv / 100)) (total - total * (resv / 100) / 100) =
      .num ((avail - total * (resv / 100)) / (total - total * (resv / 100) / 100)) := by
    unfold fdiv
    rw [if_neg (ne_of_gt hden)]
  refine ⟨?_, ?_, ?_⟩
  · intro p hp
    unfold get_available_memory_percentage at hp
    dsimp only at hp
    rw [hfd] at hp
    split_ifs at hp with h1 hstat h2 h3
    · cases hp; exact ⟨0, rfl, by norm_num, by norm_num⟩
    · cases hp; exact ⟨0, rfl, by norm_num, by norm_num⟩
    · cases hp; exact ⟨0, rfl, by norm_num, by norm_num⟩
    · cases hp
      push_neg at h2
      refine ⟨_, rfl, ?_, ?_⟩
      · have hnum : (0 : ℚ) ≤ avail - total * (resv / 100) := by linarith
        exact mul_nonneg (div_nonneg hnum (le_of_lt hden)) (by norm_num)
      · simp only [fmul100, fgt100, decide_eq_true_eq] at h3
        push_neg at h3
        exact h3
  · intro h; unfold get_available_memory_percentage; rw [if_pos h]
  · intro h
    unfold get_available_memory_percentage
    by_cases h1 : resv = 100
    · rw [if_pos h1]
    · rw [if_neg h1, if_pos rfl, if_pos h]

/-- C6 witness: `reserved_pct = 10`, `total = 1000` KiB, `avail = 500`
KiB. -/
theorem available_memory_percentage_bounds_witness :
    ((0 : ℚ) ≤ 10 ∧ (10 : ℚ) ≤ 100 ∧ (0 : ℚ) ≤ 500 ∧ (500 : ℚ) ≤ 1000 ∧
      (0 : ℚ) < 1000) ∧
    ((∀ p, get_available_memory_percentage 10 true 1000 500 = some p →
        ∃ q, p = F64X.num q ∧ 0 ≤ q ∧ q ≤ 100) ∧
      ((10 : ℚ) = 100 →
        get_available_memory_percentage 10 true 1000 500 = some (F64X.num 0)) ∧
      ((1000 : ℚ) * (10 / 100) > 500 →
        get_available_memory_percentage 10 true 1000 500 = some (F64X.num 0))) :=
  ⟨⟨by norm_num, by norm_num, by norm_num, by norm_num, by norm_num⟩,
    available_memory_percentage_bounds 10 1000 500 (by norm_num) (by norm_num)
      (by norm_num) (by norm_num) (by norm_num)⟩

/-! ## Claim C3 — dispatch without an id predicate -/

/-- C3.  For a query with no `WHERE ID=` match: an INSERT targets exactly
the shard `shard_manager.peek()` returns with the memory-update flag set;
any other query fans out to all registered shards with the flag set iff
the query begins with INSERT, DELETE, DROP, UPDATE or CREATE
(case-insensitive). -/
theorem router_dispatch_without_id_predicate
    (st : RouterSt) (q : Str) (hid : get_id_index q = none) :
    (∀ s, query_is_insert q = true → smPeek st.heap = some s →
      get_data_needed_from st q = .ok ([s], true, q)) ∧
    (query_is_insert q = false →
      get_data_needed_from st q =
        .ok (st.shardsOrder, query_affects_memory_state q, q)) ∧
    (query_affects_memory_state q = true ↔
      (beginsWithKeyword q "INSERT" ∨ beginsWithKeyword q "DELETE" ∨
        beginsWithKeyword q "DROP" ∨ beginsWithKeyword q "UPDATE" ∨
        beginsWithKeyword q "CREATE")) := by
  have hide : get_id_if_exists q = .ok none := by
    unfold get_id_if_exists
    rw [hid]
  refine ⟨?_, ?_, ?_⟩
  · intro s hins hpeek
    unfold get_data_needed_from
    rw [hide, hins, hpeek]
    simp
  · intro hins
    unfold get_data_needed_from
    rw [hide, hins]
    simp
  · unfold query_affects_memory_state query_is beginsWithKeyword
    simp only [Bool.or_eq_true, List.isPrefixOf_iff_prefix]
    tauto

/-- C3 witness: the INSERT of spec scenario 3 against the two-shard
directory. -/
theorem router_dispatch_without_id_witness :
    get_id_index (lit ("INSERT INTO test_table VALUES (1);")) = none ∧
    ((∀ s, query_is_insert (lit ("INSERT INTO test_table VALUES (1);")) = true →
        smPeek exRouterAB.heap = some s →
        get_data_needed_from exRouterAB (lit ("INSERT INTO test_table VALUES (1);")) =
          .ok ([s], true, lit ("INSERT INTO test_table VALUES (1);"))) ∧
      (query_is_insert (lit ("INSERT INTO test_table VALUES (1);")) = false →
        get_data_needed_from exRouterAB (lit ("INSERT INTO test_table VALUES (1);")) =
          .ok (exRouterAB.shardsOrder,
            query_affects_memory_state (lit ("INSERT INTO test_table VALUES (1);")),
            lit ("INSERT INTO test_table VALUES (1);"))) ∧
      (query_affects_memory_state (lit ("INSERT INTO test_table VALUES (1);")) = true ↔
        (beginsWithKeyword (lit ("INSERT INTO test_table VALUES (1);")) "INSERT" ∨
          beginsWithKeyword (lit ("INSERT INTO test_table VALUES (1);")) "DELETE" ∨
          beginsWithKeyword (lit ("INSERT INTO test_table VALUES (1);")) "DROP" ∨
          beginsWithKeyword (lit ("INSERT INTO test_table VALUES (1);")) "UPDATE" ∨
          beginsWithKeyword (lit ("INSERT INTO test_table VALUES (1);")) "CREATE"))) :=
  ⟨by decide,
    router_dispatch_without_id_predicate exRouterAB
      (lit ("INSERT INTO test_table VALUES (1);")) (by decide)⟩

/-! ## Claim C2 — targeted SELECT with id rewrite -/

/-- The shard-walk loop of `get_specific_shard_with` computes exactly the
spec's subtract-walk `walkSpec`, rewriting the query at the found shard. -/
theorem specific_loop_eq_walk (st : RouterSt) (t q : Str) :
    ∀ (shards : List Str) (i : Int),
      specific_shard_loop st t q shards i =
        match walkSpec (fun sid => get_max_ids_for_shard_table st sid t) shards i with
        | some (sid, n') =>
          (format_query_with_new_id q n').map
            (fun fq => ([sid], query_affects_memory_state q, fq))
        | none => .ok (st.shardsOrder, query_affects_memory_state q, q) := by
  intro shards
  induction shards with
  | nil => intro i; rfl
  | cons sid rest ih =>
    intro i
    unfold specific_shard_loop walkSpec
    cases hmx : get_max_ids_for_shard_table st sid t with
    | none => simp only [hmx]; exact ih i
    | some m =>
      simp only [hmx]
      by_cases hgt : i > m
      · rw [if_pos hgt, if_pos hgt]
        exact ih (i - m)
      · rw [if_neg hgt, if_neg hgt]

/-- C2 counterexample.  On `SELECT * FROM t WHERE id =  9;` — two spaces
after the `=`, inside the claim's "tolerant of whitespace" scope, and the
extractor succeeds with `9` — the walk over max ids `5`, `9` reduces the
id to `4` and targets shard `5434`, but the splice starts at the match
position while removing only the TRIMMED id's length, so the routed query
reads `WHERE id = 49;`: the reduced id is inserted before the residual
digit, not substituted for the original value (the target shard would look
up id `49`, not `4`). -/
theorem targeted_rewrite_inserts_before_residual_digit :
    get_id_if_exists exQuerySpaced = .ok (some 9) ∧
    get_table_name_from_query exQuerySpaced = some (lit ("t")) ∧
    get_data_needed_from exRouterSp exQuerySpaced =
      .ok ([lit ("5434")], false, lit ("SELECT * FROM t WHERE id = 49;")) ∧
    get_id_if_exists (lit ("SELECT * FROM t WHERE id = 49;")) =
      .ok (some 49) ∧ (49 : Int) ≠ 4 := by
  decide

/-- C2 amended.  For every query whose id extractor yields `N` and whose
table name is extractable, dispatch walks the shards in registration order
exactly as `walkSpec` prescribes (subtracting each known max id while `N`
exceeds it): the first fitting shard becomes the sole target and
exhausting the walk fans out with the original query.  The routed query is
the splice `take idx ++ new_id ++ drop (idx + |trimmed id|)`: WHEN the id
token directly follows the matched `WHERE ID=` form (`drop idx q` =
trimmed id ++ `rest`, the canonical single-space spacing), this is the
claimed substitution — prefix, reduced id, and the untouched `rest` — as
stated here; with extra whitespace before the value the original digits
survive (`targeted_rewrite_inserts_before_residual_digit`).  In
particular, with `max_ids[5433][test_table] = 5` and
`max_ids[5434][test_table] = 3`, `SELECT * FROM test_table WHERE id = 7;`
targets shard `5434` only, rewritten to `WHERE id = 2;`. -/
theorem router_targeted_select_walks_shards_in_order
    (st : RouterSt) (q : Str) (n : Int) (t : Str) (idx : Nat) (rest : Str)
    (hid : get_id_if_exists q = .ok (some n))
    (ht : get_table_name_from_query q = some t)
    (hidx : get_id_index q = some idx)
    (hres : q.drop idx = get_trimmed_id q idx ++ rest) :
    (∀ n', format_query_with_new_id q n' =
      .ok (q.take idx ++ intToStr n' ++ rest)) ∧
    (get_data_needed_from st q =
      match walkSpec (fun sid => get_max_ids_for_shard_table st sid t)
          st.shardsOrder n with
      | some (sid, n') =>
        .ok ([sid], query_affects_memory_state q,
          q.take idx ++ intToStr n' ++ rest)
      | none => .ok (st.shardsOrder, query_affects_memory_state q, q)) ∧
    get_data_needed_from exRouterAB exQueryId7 =
      .ok ([lit ("5434")], false, lit ("SELECT * FROM test_table WHERE id = 2;")) := by
  have hfmt : ∀ n', format_query_with_new_id q n' =
      .ok (q.take idx ++ intToStr n' ++ rest) := by
    intro n'
    unfold format_query_with_new_id
    rw [hidx]
    dsimp only
    have hdrop : q.drop (idx + (get_trimmed_id q idx).length) = rest := by
      have h1 : List.drop (idx + (get_trimmed_id q idx).length) q =
          List.drop (get_trimmed_id q idx).length (List.drop idx q) := by
        rw [List.drop_drop, Nat.add_comm]
      rw [h1, hres, List.drop_left]
    rw [hdrop]
  refine ⟨hfmt, ?_, by decide⟩
  unfold get_data_needed_from
  rw [hid]
  unfold get_specific_shard_with
  rw [ht]
  dsimp only
  rw [specific_loop_eq_walk st t q st.shardsOrder n]
  cases walkSpec (fun sid => get_max_ids_for_shard_table st sid t)
      st.shardsOrder n with
  | none => rfl
  | some p =>
    obtain ⟨sid, n'⟩ := p
    dsimp only
    rw [hfmt n']
    rfl

/-- C2 witness: the scenario-5 instance, whose id token `7` directly
follows the matched form at index `36` with residue `;`. -/
theorem router_targeted_select_witness :
    (get_id_if_exists exQueryId7 = .ok (some 7) ∧
     get_table_name_from_query exQueryId7 = some (lit ("test_table")) ∧
     get_id_index exQueryId7 = some 36 ∧
     exQueryId7.drop 36 = get_trimmed_id exQueryId7 36 ++ lit (";")) ∧
    ((∀ n', format_query_with_new_id exQueryId7 n' =
      .ok (exQueryId7.take 36 ++ intToStr n' ++ lit (";"))) ∧
    (get_data_needed_from exRouterAB exQueryId7 =
      match walkSpec
          (fun sid => get_max_ids_for_shard_table exRouterAB sid (lit ("test_table")))
          exRouterAB.shardsOrder 7 with
      | some (sid, n') =>
        .ok ([sid], query_affects_memory_state exQueryId7,
          exQueryId7.take 36 ++ intToStr n' ++ lit (";"))
      | none =>
        .ok (exRouterAB.shardsOrder, query_affects_memory_state exQueryId7,
          exQueryId7)) ∧
    get_data_needed_from exRouterAB exQueryId7 =
      .ok ([lit ("5434")], false, lit ("SELECT * FROM test_table WHERE id = 2;"))) :=
  ⟨⟨by decide, by decide, by decide, by decide⟩,
    router_targeted_select_walks_shards_in_order exRouterAB exQueryId7 7
      (lit ("test_table")) 36 (lit (";")) (by decide) (by decide) (by decide)
      (by decide)⟩

/-- C9 amended.  Handling an accepted `INIT_CONNECTION` records the sender
as the shard's router and replies `AGREED` carrying the CURRENTLY STORED
`available_memory_perc` and `tables_max_id` — no refresh happens on this
path (contrast `ASK_MEMORY_UPDATE`). -/
theorem init_connection_records_router_and_replies_with_stored_state
    (st : ShardSt) (env : ShardEnv) (input : Str) (msg : MessageM) (ni : NodeInfoM)
    (hmsg : MessageM.from_string input = .ok msg)
    (hty : msg.message_type = .InitConnection)
    (hni : msg.node_info = some ni) :
    shard_get_response_message st env input =
      .ok ({ st with router_info := some ni },
        some (MessageM.to_string
          (MessageM.new_agreed st.available_memory_perc st.tables_max_id))) := by
  by_cases hinput : input = []
  · rw [hinput] at hmsg
    have hempty : MessageM.from_string [] = .err (lit ("Invalid message type")) := by
      decide
    rw [hempty] at hmsg
    cases hmsg
  · unfold shard_get_response_message
    rw [if_neg hinput, hmsg]
    have hdata : (MessageM.get_data msg).node_info = some ni := by
      unfold MessageM.get_data
      rw [hty, hni]
    dsimp only
    rw [hty]
    dsimp only
    rw [hdata]
    rfl

/-- C9 witness: the concrete `INIT_CONNECTION` wire line against
`exShardSt`. -/
theorem init_connection_stored_state_witness :
    MessageM.from_string exInitWire =
      .ok ⟨.InitConnection, none, none,
        some ⟨lit ("1.2.3.4"), lit ("9999")⟩, none⟩ ∧
    shard_get_response_message exShardSt exShardEnv exInitWire =
      .ok ({ exShardSt with
              router_info := some ⟨lit ("1.2.3.4"), lit ("9999")⟩ },
        some (MessageM.to_string
          (MessageM.new_agreed exShardSt.available_memory_perc
            exShardSt.tables_max_id))) :=
  ⟨by decide,
    init_connection_records_router_and_replies_with_stored_state exShardSt
      exShardEnv exInitWire
      ⟨.InitConnection, none, none, some ⟨lit ("1.2.3.4"), lit ("9999")⟩, none⟩
      ⟨lit ("1.2.3.4"), lit ("9999")⟩ (by decide) rfl rfl⟩

/-! ## Claim C5 amended theorem -/

/-- C5 amended.  An unknown (or absent) type token makes `from_string`
return the `InvalidMessage` error; but each kind of malformed numeric field
— payload, a `max_ids` value, a node token without a colon — aborts the
decode by PANIC, not by an error. -/
theorem from_string_unknown_type_errors_and_bad_numeric_panics
    (input t0 : Str) (h1 : (splitWs input).head? = some t0)
    (h2 : parseMessageType t0 = none) :
    MessageM.from_string input = .err (lit ("Invalid message type")) ∧
    MessageM.from_string [] = .err (lit ("Invalid message type")) ∧
    MessageM.from_string (lit ("AGREED abc None None None")) = .panicked ∧
    MessageM.from_string (lit ("MEMORY_UPDATE 1 t:xy None None")) = .panicked ∧
    MessageM.from_string (lit ("INIT_CONNECTION None None 12345 None")) =
      .panicked := by
  refine ⟨?_, by decide, by decide, by decide, by decide⟩
  unfold MessageM.from_string
  cases hs : splitWs input with
  | nil => rfl
  | cons x r0 =>
    rw [hs] at h1
    cases h1
    dsimp only
    rw [h2]

/-- C5 witness: an unknown `BOGUS` type token. -/
theorem from_string_unknown_type_witness :
    (splitWs (lit ("BOGUS 0.5 None None None"))).head? = some (lit ("BOGUS")) ∧
    parseMessageType (lit ("BOGUS")) = none ∧
    (MessageM.from_string (lit ("BOGUS 0.5 None None None")) =
        .err (lit ("Invalid message type")) ∧
      MessageM.from_string [] = .err (lit ("Invalid message type")) ∧
      MessageM.from_string (lit ("AGREED abc None None None")) = .panicked ∧
      MessageM.from_string (lit ("MEMORY_UPDATE 1 t:xy None None")) = .panicked ∧
      MessageM.from_string (lit ("INIT_CONNECTION None None 12345 None")) =
        .panicked) :=
  ⟨by decide, by decide,
    from_string_unknown_type_errors_and_bad_numeric_panics
      (lit ("BOGUS 0.5 None None None")) (lit ("BOGUS")) (by decide) (by decide)⟩

/-! ## Tokenization and numeral lemmas -/

theorem splitWsAux_sep (sep : Char) (hsep : isWsChar sep = true) (rest : Str) :
    ∀ (tok cur : Str), (∀ c ∈ tok, isWsChar c = false) →
      (tok ≠ [] ∨ cur ≠ []) →
      splitWsAux (tok ++ sep :: rest) cur = (cur.reverse ++ tok) :: splitWs rest := by
  intro tok
  induction tok with
  | nil =>
    intro cur _ hne
    have hcur : cur ≠ [] := by
      rcases hne with h | h
      · exact absurd rfl h
      · exact h
    simp only [List.nil_append, splitWsAux, hsep, if_true]
    rw [if_neg hcur, List.append_nil]
    rfl
  | cons c tok' ih =>
    intro cur hws _
    have hc : isWsChar c = false := hws c (List.mem_cons_self c tok')
    simp only [List.cons_append, splitWsAux, hc, List.append_eq]
    rw [if_neg (by decide : ¬false = true)]
    rw [ih (c :: cur) (fun d hd => hws d (List.mem_cons_of_mem c hd))
      (Or.inr (by simp))]
    simp [List.append_assoc]

theorem splitWs_token (tok : Str) (h1 : tok ≠ [])
    (h2 : ∀ c ∈ tok, isWsChar c = false) (sep : Char)
    (hsep : isWsChar sep = true) (rest : Str) :
    splitWs (tok ++ sep :: rest) = tok :: splitWs rest := by
  unfold splitWs
  rw [splitWsAux_sep sep hsep rest tok [] h2 (Or.inl h1)]
  rfl

theorem digit_facts (k : Nat) (h : k < 10) :
    isDigitChar (digitChar k) = true ∧ charVal (digitChar k) = k ∧
      isWsChar (digitChar k) = false := by
  interval_cases k <;> exact ⟨by decide, by decide, by decide⟩

theorem digit_char_ne (c : Char) (h : isDigitChar c = true) :
    c ≠ '.' ∧ c ≠ '-' ∧ c ≠ '+' ∧ c ≠ ':' ∧ c ≠ ',' ∧ isWsChar c = false := by
  have hne : ∀ d : Char, isDigitChar d = false → c ≠ d := by
    intro d hd hcd
    rw [hcd, hd] at h
    cases h
  refine ⟨hne _ (by decide), hne _ (by decide), hne _ (by decide),
    hne _ (by decide), hne _ (by decide), ?_⟩
  cases hw : isWsChar c
  · rfl
  · exfalso
    unfold isWsChar at hw
    simp only [Bool.or_eq_true, decide_eq_true_eq] at hw
    rcases hw with ((rfl | rfl) | rfl) | rfl <;> exact absurd h (by decide)

theorem natToStrAux_factor :
    ∀ (fuel n : Nat) (acc : Str),
      natToStrAux fuel n acc = natToStrAux fuel n [] ++ acc := by
  intro fuel
  induction fuel with
  | zero => intro n acc; rfl
  | succ f ih =>
    intro n acc
    unfold natToStrAux
    by_cases h : n < 10
    · rw [if_pos h, if_pos h]
      rfl
    · rw [if_neg h, if_neg h, ih (n / 10) (digitChar (n % 10) :: acc),
        ih (n / 10) [digitChar (n % 10)], List.append_assoc]
      rfl

theorem natToStrAux_fuel :
    ∀ (fuel fuel' n : Nat), n ≤ fuel → n ≤ fuel' →
      natToStrAux fuel n [] = natToStrAux fuel' n [] := by
  intro fuel
  induction fuel with
  | zero =>
    intro fuel' n hf hf'
    have hn : n = 0 := Nat.le_zero.mp hf
    subst hn
    cases fuel' with
    | zero => rfl
    | succ f' => simp [natToStrAux]
  | succ f ih =>
    intro fuel' n hf hf'
    cases fuel' with
    | zero =>
      have hn : n = 0 := Nat.le_zero.mp hf'
      subst hn
      simp [natToStrAux]
    | succ f' =>
      unfold natToStrAux
      by_cases h : n < 10
      · rw [if_pos h, if_pos h]
      · rw [if_neg h, if_neg h,
          natToStrAux_factor f (n / 10) [digitChar (n % 10)],
          natToStrAux_factor f' (n / 10) [digitChar (n % 10)],
          ih f' (n / 10) (by omega) (by omega)]

theorem natToStr_small (n : Nat) (h : n < 10) : natToStr n = [digitChar n] := by
  unfold natToStr
  cases n with
  | zero => rfl
  | succ k => unfold natToStrAux; rw [if_pos h]

theorem natToStr_decomp (n : Nat) (h : 10 ≤ n) :
    natToStr n = natToStr (n / 10) ++ [digitChar (n % 10)] := by
  obtain ⟨f, rfl⟩ : ∃ f, n = f + 1 := ⟨n - 1, by omega⟩
  show natToStrAux (f + 1) (f + 1) [] = _
  rw [natToStrAux]
  rw [if_neg (by omega)]
  rw [natToStrAux_factor f ((f + 1) / 10) [digitChar ((f + 1) % 10)]]
  rw [natToStrAux_fuel f ((f + 1) / 10) ((f + 1) / 10) (by omega) (by omega)]
  rfl

theorem natToStr_ne_nil (n : Nat) : natToStr n ≠ [] := by
  by_cases h : n < 10
  · rw [natToStr_small n h]
    simp
  · rw [natToStr_decomp n (by omega)]
    simp

theorem natToStr_all_digits (n : Nat) :
    ∀ c ∈ natToStr n, ∃ k, k < 10 ∧ c = digitChar k := by
  induction n using Nat.strong_induction_on with
  | _ n ih =>
    by_cases h : n < 10
    · rw [natToStr_small n h]
      intro c hc
      rw [List.mem_singleton] at hc
      exact ⟨n, h, hc⟩
    · rw [natToStr_decomp n (by omega)]
      intro c hc
      rcases List.mem_append.mp hc with h1 | h1
      · exact ih (n / 10) (by omega) c h1
      · rw [List.mem_singleton] at h1
        exact ⟨n % 10, by omega, h1⟩

theorem natToStr_foldl (n : Nat) :
    List.foldl (fun a c => a * 10 + charVal c) 0 (natToStr n) = n := by
  induction n using Nat.strong_induction_on with
  | _ n ih =>
    by_cases h : n < 10
    · rw [natToStr_small n h]
      show 0 * 10 + charVal (digitChar n) = n
      rw [(digit_facts n h).2.1]
      omega
    · rw [natToStr_decomp n (by omega), List.foldl_append,
        ih (n / 10) (by omega)]
      show n / 10 * 10 + charVal (digitChar (n % 10)) = n
      rw [(digit_facts (n % 10) (by omega)).2.1]
      omega

theorem parseNat_natToStr (n : Nat) : parseNat (natToStr n) = some n := by
  have hall : (natToStr n).all isDigitChar = true := by
    rw [List.all_eq_true]
    intro c hc
    obtain ⟨k, hk, rfl⟩ := natToStr_all_digits n c hc
    exact (digit_facts k hk).1
  unfold parseNat
  rw [if_pos ⟨natToStr_ne_nil n, hall⟩, natToStr_foldl n]

theorem intToStr_chars (v : Int) :
    ∀ c ∈ intToStr v, isDigitChar c = true ∨ c = '-' := by
  unfold intToStr
  by_cases h : v < 0
  · rw [if_pos h]
    intro c hc
    rcases List.mem_cons.mp hc with rfl | hm
    · exact Or.inr rfl
    · obtain ⟨k, hk, rfl⟩ := natToStr_all_digits _ c hm
      exact Or.inl (digit_facts k hk).1
  · rw [if_neg h]
    intro c hc
    obtain ⟨k, hk, rfl⟩ := natToStr_all_digits _ c hc
    exact Or.inl (digit_facts k hk).1

theorem parseI64_intToStr (v : Int) (hr : i64InRange v) :
    parseI64 (intToStr v) = some v := by
  rcases hr with ⟨hlo, hhi⟩
  by_cases h : v < 0
  · unfold intToStr
    rw [if_pos h]
    unfold parseI64
    dsimp only
    rw [if_pos rfl, parseNat_natToStr]
    dsimp only
    rw [if_pos (by omega : -(((v.natAbs : Nat) : Int)) ≥ -2 ^ 63)]
    congr 1
    omega
  · unfold intToStr
    rw [if_neg h]
    cases hns : natToStr v.toNat with
    | nil => exact absurd hns (natToStr_ne_nil _)
    | cons c r =>
      have hd : isDigitChar c = true := by
        obtain ⟨k, hk, rfl⟩ :=
          natToStr_all_digits v.toNat c (hns ▸ List.mem_cons_self c r)
        exact (digit_facts k hk).1
      obtain ⟨_, hne2, hne3, _, _, _⟩ := digit_char_ne c hd
      unfold parseI64
      dsimp only
      rw [if_neg hne2, if_neg hne3, ← hns, parseNat_natToStr]
      dsimp only
      rw [if_pos (by omega : ((v.toNat : Nat) : Int) < 2 ^ 63)]
      congr 1
      omega

theorem splitOnChar_no_sep (sep : Char) :
    ∀ (s : Str), (∀ c ∈ s, c ≠ sep) → splitOnChar sep s = [s] := by
  intro s
  induction s with
  | nil => intro _; rfl
  | cons c rest ih =>
    intro h
    unfold splitOnChar
    rw [if_neg (h c (List.mem_cons_self c rest)),
      ih (fun d hd => h d (List.mem_cons_of_mem c hd))]

theorem splitOnChar_append_sep (sep : Char) (b : Str) :
    ∀ (a : Str), (∀ c ∈ a, c ≠ sep) →
      splitOnChar sep (a ++ sep :: b) = a :: splitOnChar sep b := by
  intro a
  induction a with
  | nil =>
    intro _
    show splitOnChar sep (sep :: b) = [] :: splitOnChar sep b
    conv_lhs => unfold splitOnChar
    rw [if_pos rfl]
  | cons c rest ih =>
    intro h
    show splitOnChar sep (c :: (rest ++ sep :: b)) = _
    conv_lhs => unfold splitOnChar
    rw [if_neg (h c (List.mem_cons_self c rest)),
      ih (fun d hd => h d (List.mem_cons_of_mem c hd))]

theorem f64ToStr_chars (p : F64Lit) :
    ∀ c ∈ f64ToStr p, isDigitChar c = true ∨ c = '-' ∨ c = '.' := by
  intro c hc
  unfold f64ToStr at hc
  rcases List.mem_append.mp hc with h1 | h1
  · rcases List.mem_append.mp h1 with h2 | h2
    · rcases p.neg with _ | _ <;> simp_all
    · obtain ⟨k, hk, rfl⟩ := natToStr_all_digits _ c h2
      exact Or.inl (digit_facts k hk).1
  · by_cases hf : p.frac = []
    · rw [if_pos hf] at h1
      cases h1
    · rw [if_neg hf] at h1
      rcases List.mem_cons.mp h1 with rfl | h2
      · exact Or.inr (Or.inr rfl)
      · obtain ⟨d, _, rfl⟩ := List.mem_map.mp h2
        exact Or.inl (digit_facts d.val d.isLt).1

theorem parseF64Pos_body (ip : Nat) (frac : List (Fin 10)) :
    parseF64Pos (natToStr ip ++
        (if frac = [] then [] else '.' :: frac.map (fun d => digitChar d.val))) =
      some ⟨false, ip, frac⟩ := by
  have hip : ∀ c ∈ natToStr ip, c ≠ '.' := by
    intro c hc
    obtain ⟨k, hk, rfl⟩ := natToStr_all_digits ip c hc
    exact (digit_char_ne _ (digit_facts k hk).1).1
  by_cases hf : frac = []
  · subst hf
    rw [if_pos rfl, List.append_nil]
    unfold parseF64Pos
    rw [splitOnChar_no_sep '.' (natToStr ip) hip]
    dsimp only
    rw [parseNat_natToStr]
    rfl
  · rw [if_neg hf]
    unfold parseF64Pos
    rw [splitOnChar_append_sep '.' (frac.map (fun d => digitChar d.val))
        (natToStr ip) hip]
    rw [splitOnChar_no_sep '.' (frac.map (fun d => digitChar d.val))
        (by
          intro c hc
          obtain ⟨d, _, rfl⟩ := List.mem_map.mp hc
          exact (digit_char_ne _ (digit_facts d.val d.isLt).1).1)]
    dsimp only
    rw [parseNat_natToStr]
    dsimp only
    have hfr : (frac.map (fun d => digitChar d.val)) ≠ [] := by
      simpa using hf
    have hall : (frac.map (fun d => digitChar d.val)).all isDigitChar = true := by
      rw [List.all_eq_true]
      intro c hc
      obtain ⟨d, _, rfl⟩ := List.mem_map.mp hc
      exact (digit_facts d.val d.isLt).1
    rw [if_pos ⟨hfr, hall⟩]
    congr 1
    have hmap : ∀ d : Fin 10,
        (⟨charVal (digitChar d.val) % 10, Nat.mod_lt _ (by omega)⟩ : Fin 10) = d := by
      intro d
      apply Fin.ext
      show charVal (digitChar d.val) % 10 = d.val
      rw [(digit_facts d.val d.isLt).2.1]
      exact Nat.mod_eq_of_lt d.isLt
    show F64Lit.mk false ip _ = F64Lit.mk false ip frac
    congr 1
    rw [List.map_map]
    calc (frac.map fun d =>
          (⟨charVal (digitChar d.val) % 10, Nat.mod_lt _ (by omega)⟩ : Fin 10)) =
        frac.map id := List.map_congr_left (fun d _ => hmap d)
      _ = frac := List.map_id frac

theorem parseF64_f64ToStr (p : F64Lit) : parseF64 (f64ToStr p) = some p := by
  obtain ⟨neg, ip, frac⟩ := p
  cases neg with
  | true =>
    show parseF64 ('-' :: (natToStr ip ++ _)) = _
    unfold parseF64
    dsimp only
    rw [if_pos rfl, parseF64Pos_body ip frac]
    rfl
  | false =>
    show parseF64 ([] ++ (natToStr ip ++ _)) = _
    rw [List.nil_append]
    cases hns : natToStr ip with
    | nil => exact absurd hns (natToStr_ne_nil ip)
    | cons c r =>
      have hd : isDigitChar c = true := by
        obtain ⟨k, hk, rfl⟩ :=
          natToStr_all_digits ip c (hns ▸ List.mem_cons_self c r)
        exact (digit_facts k hk).1
      obtain ⟨_, hne2, hne3, _, _, _⟩ := digit_char_ne c hd
      rw [List.cons_append]
      unfold parseF64
      dsimp only
      rw [if_neg hne2, if_neg hne3, ← List.cons_append, ← hns]
      exact parseF64Pos_body ip frac

theorem tablesPair_roundtrip (k : Str) (v : Int)
    (hk : ∀ c ∈ k, ¬(c = ':' ∨ c = ',' ∨ isWsChar c = true))
    (hv : i64InRange v) :
    tablesPairParse (k ++ ':' :: intToStr v) = .ok (k, v) := by
  unfold tablesPairParse
  rw [splitOnChar_append_sep ':' (intToStr v) k
      (fun c hc h => (hk c hc) (Or.inl h))]
  rw [splitOnChar_no_sep ':' (intToStr v)
      (by
        intro c hc
        rcases intToStr_chars v c hc with hd | rfl
        · exact (digit_char_ne c hd).2.2.2.1
        · decide)]
  dsimp only
  rw [parseI64_intToStr v hv]

theorem tablesToStr_cons (k : Str) (v : Int) (rest : TablesIdInfoM)
    (hrest : rest ≠ []) :
    tablesToStr ((k, v) :: rest) =
      (k ++ ':' :: intToStr v) ++ ',' :: tablesToStr rest := by
  cases rest with
  | nil => exact absurd rfl hrest
  | cons p ps =>
    show tablesToStr ((k, v) :: p :: ps) = _
    simp [tablesToStr, List.append_assoc]

theorem pairStr_no_comma (k : Str) (v : Int)
    (hk : ∀ c ∈ k, ¬(c = ':' ∨ c = ',' ∨ isWsChar c = true)) :
    ∀ c ∈ k ++ ':' :: intToStr v, c ≠ ',' := by
  intro c hc
  rcases List.mem_append.mp hc with h1 | h1
  · exact fun h => (hk c h1) (Or.inr (Or.inl h))
  · rcases List.mem_cons.mp h1 with rfl | h2
    · decide
    · rcases intToStr_chars v c h2 with hd | rfl
      · exact (digit_char_ne c hd).2.2.2.2.1
      · decide

theorem splitOnChar_tablesToStr (l : TablesIdInfoM) (hl : l ≠ [])
    (hwf : ∀ p ∈ l, wfTableEntry p) :
    splitOnChar ',' (tablesToStr l) =
      l.map (fun p => p.1 ++ ':' :: intToStr p.2) := by
  induction l with
  | nil => exact absurd rfl hl
  | cons p rest ih =>
    obtain ⟨k, v⟩ := p
    have hk := (hwf (k, v) (List.mem_cons_self _ _)).1
    cases hr : rest with
    | nil =>
      show splitOnChar ',' (tablesToStr [(k, v)]) = _
      unfold tablesToStr
      rw [splitOnChar_no_sep ',' _ (pairStr_no_comma k v hk)]
      rfl
    | cons q qs =>
      rw [← hr, tablesToStr_cons k v rest (by rw [hr]; simp)]
      rw [splitOnChar_append_sep ',' (tablesToStr rest) _
          (pairStr_no_comma k v hk)]
      rw [ih (by rw [hr]; simp)
          (fun q hq => hwf q (List.mem_cons_of_mem _ hq))]
      rfl

theorem indexMapInsert_append (acc : TablesIdInfoM) (k : Str) (v : Int)
    (hk : k ∉ acc.map Prod.fst) :
    indexMapInsert acc k v = acc ++ [(k, v)] := by
  induction acc with
  | nil => rfl
  | cons p rest ih =>
    unfold indexMapInsert
    rw [if_neg (by
      intro h
      exact hk (by rw [← h]; simp))]
    rw [ih (by
      intro h
      exact hk (by simp [h]))]
    rfl

theorem tablesFold_insert (l : TablesIdInfoM) :
    ∀ (acc : TablesIdInfoM),
      (∀ p ∈ l, p.1 ∉ acc.map Prod.fst) → (l.map Prod.fst).Nodup →
      l.foldl (fun m p => indexMapInsert m p.1 p.2) acc = acc ++ l := by
  induction l with
  | nil => intro acc _ _; simp
  | cons p rest ih =>
    intro acc hdisj hnd
    obtain ⟨k, v⟩ := p
    show rest.foldl _ (indexMapInsert acc k v) = _
    rw [indexMapInsert_append acc k v
        (hdisj (k, v) (List.mem_cons_self _ _))]
    have hnd' : k ∉ rest.map Prod.fst ∧ (rest.map Prod.fst).Nodup := by
      rw [List.map_cons, List.nodup_cons] at hnd
      exact hnd
    rw [ih (acc ++ [(k, v)])
        (by
          intro q hq
          rw [List.map_append, List.mem_append]
          rintro (h1 | h1)
          · exact hdisj q (List.mem_cons_of_mem _ hq) h1
          · simp only [List.map_cons, List.map_nil, List.mem_singleton] at h1
            exact hnd'.1 (h1 ▸ List.mem_map_of_mem Prod.fst hq))
        hnd'.2]
    simp

theorem tablesFromStr_roundtrip (l : TablesIdInfoM) (hl : l ≠ [])
    (hnd : (l.map Prod.fst).Nodup) (hwf : ∀ p ∈ l, wfTableEntry p) :
    tablesFromStr (tablesToStr l) = .ok l := by
  unfold tablesFromStr
  rw [splitOnChar_tablesToStr l hl hwf]
  have hgen : ∀ (lseg : TablesIdInfoM) (acc : TablesIdInfoM),
      (∀ p ∈ lseg, wfTableEntry p) →
      (lseg.map (fun p => p.1 ++ ':' :: intToStr p.2)).foldl
        (fun acc pair =>
          match acc with
          | PResult.panicked => PResult.panicked
          | PResult.ok m =>
            match tablesPairParse pair with
            | PResult.ok (k, v) => PResult.ok (indexMapInsert m k v)
            | PResult.panicked => PResult.panicked)
        (PResult.ok acc) =
      .ok (lseg.foldl (fun m p => indexMapInsert m p.1 p.2) acc) := by
    intro lseg
    induction lseg with
    | nil => intro acc _; rfl
    | cons p rest ih =>
      intro acc hwf'
      obtain ⟨k, v⟩ := p
      have hp := hwf' (k, v) (List.mem_cons_self _ _)
      simp only [List.map_cons, List.foldl_cons,
        tablesPair_roundtrip k v hp.1 hp.2]
      exact ih _ (fun q hq => hwf' q (List.mem_cons_of_mem _ hq))
  rw [hgen l [] hwf]
  rw [tablesFold_insert l [] (by simp) hnd]
  rfl

theorem nodeInfoFromStr_roundtrip (ip port : Str)
    (hip : ∀ c ∈ ip, c ≠ ':') (hport : ∀ c ∈ port, c ≠ ':') :
    nodeInfoFromStr (ip ++ ':' :: port) = some ⟨ip, port⟩ := by
  unfold nodeInfoFromStr
  rw [splitOnChar_append_sep ':' port ip hip,
    splitOnChar_no_sep ':' port hport]

theorem messageTypeTok_wf (mt : MessageTypeM) :
    messageTypeTok mt ≠ [] ∧ (∀ c ∈ messageTypeTok mt, isWsChar c = false) ∧
      parseMessageType (messageTypeTok mt) = some mt := by
  cases mt <;> exact ⟨by decide, by decide, by decide⟩

theorem f64ToStr_ne_nil (p : F64Lit) : f64ToStr p ≠ [] := by
  cases hns : natToStr p.intPart with
  | nil => exact absurd hns (natToStr_ne_nil _)
  | cons c r =>
    have hc : c ∈ f64ToStr p := by
      unfold f64ToStr
      rw [hns]
      simp
    exact List.ne_nil_of_mem hc

theorem f64ToStr_no_ws (p : F64Lit) :
    ∀ c ∈ f64ToStr p, isWsChar c = false := by
  intro c hc
  rcases f64ToStr_chars p c hc with hd | rfl | rfl
  · exact (digit_char_ne c hd).2.2.2.2.2
  · decide
  · decide

theorem f64ToStr_ne_none_tok (p : F64Lit) : f64ToStr p ≠ lit ("None") := by
  intro h
  have hN : 'N' ∈ f64ToStr p := by
    rw [h]
    decide
  rcases f64ToStr_chars p 'N' hN with hd | h1 | h1
  · exact absurd hd (by decide)
  · cases h1
  · cases h1

theorem tablesToStr_colon_mem (l : TablesIdInfoM) (hl : l ≠ []) :
    ':' ∈ tablesToStr l := by
  cases l with
  | nil => exact absurd rfl hl
  | cons p rest =>
    obtain ⟨k, v⟩ := p
    cases hr : rest with
    | nil => show ':' ∈ tablesToStr [(k, v)]; unfold tablesToStr; simp
    | cons q qs =>
      rw [← hr, tablesToStr_cons k v rest (by rw [hr]; simp)]
      simp

theorem tablesToStr_chars (l : TablesIdInfoM) :
    ∀ c ∈ tablesToStr l,
      (∃ p ∈ l, c ∈ p.1) ∨ c = ':' ∨ c = ',' ∨ isDigitChar c = true ∨ c = '-' := by
  induction l with
  | nil => intro c hc; cases hc
  | cons p rest ih =>
    obtain ⟨k, v⟩ := p
    intro c hc
    have hsplit : c ∈ (k ++ ':' :: intToStr v) ∨ c = ',' ∨ c ∈ tablesToStr rest := by
      by_cases hrnil : rest = []
      · subst hrnil
        revert hc
        show c ∈ tablesToStr [(k, v)] → _
        unfold tablesToStr
        intro hc
        exact Or.inl (by simpa using hc)
      · rw [tablesToStr_cons k v rest hrnil] at hc
        rcases List.mem_append.mp hc with h1 | h1
        · exact Or.inl h1
        · rcases List.mem_cons.mp h1 with rfl | h2
          · exact Or.inr (Or.inl rfl)
          · exact Or.inr (Or.inr h2)
    rcases hsplit with h1 | rfl | h1
    · rcases List.mem_append.mp h1 with h2 | h2
      · exact Or.inl ⟨(k, v), List.mem_cons_self _ _, h2⟩
      · rcases List.mem_cons.mp h2 with rfl | h3
        · exact Or.inr (Or.inl rfl)
        · rcases intToStr_chars v c h3 with hd | rfl
          · exact Or.inr (Or.inr (Or.inr (Or.inl hd)))
          · exact Or.inr (Or.inr (Or.inr (Or.inr rfl)))
    · exact Or.inr (Or.inr (Or.inl rfl))
    · rcases ih c h1 with ⟨q, hq, hcq⟩ | h2
      · exact Or.inl ⟨q, List.mem_cons_of_mem _ hq, hcq⟩
      · exact Or.inr h2

theorem tablesToStr_no_ws (l : TablesIdInfoM)
    (hwf : ∀ p ∈ l, wfTableEntry p) :
    ∀ c ∈ tablesToStr l, isWsChar c = false := by
  intro c hc
  rcases tablesToStr_chars l c hc with ⟨p, hp, hcp⟩ | rfl | rfl | hd | rfl
  · cases hw : isWsChar c
    · rfl
    · exact absurd (Or.inr (Or.inr hw)) ((hwf p hp).1 c hcp)
  · decide
  · decide
  · exact (digit_char_ne c hd).2.2.2.2.2
  · decide

theorem tablesToStr_ne_none_tok (l : TablesIdInfoM) (hl : l ≠ []) :
    tablesToStr l ≠ lit ("None") := by
  intro h
  have := tablesToStr_colon_mem l hl
  rw [h] at this
  exact absurd this (by decide)

theorem readPayloadTok_step (payload : Option F64Lit) (rest : List Str) :
    readPayloadTok (payloadTok payload :: rest) = .ok (payload, rest) := by
  cases payload with
  | none => simp [readPayloadTok, payloadTok]
  | some p =>
    show readPayloadTok (f64ToStr p :: rest) = _
    unfold readPayloadTok
    dsimp only
    rw [if_neg (f64ToStr_ne_none_tok p), parseF64_f64ToStr p]

theorem readMaxIdsTok_step (max_ids : Option TablesIdInfoM) (rest : List Str)
    (h : ∀ l, max_ids = some l →
      l ≠ [] ∧ (l.map Prod.fst).Nodup ∧ ∀ p ∈ l, wfTableEntry p) :
    readMaxIdsTok (maxIdsTok max_ids :: rest) = .ok (max_ids, rest) := by
  cases max_ids with
  | none => simp [readMaxIdsTok, maxIdsTok]
  | some l =>
    obtain ⟨hne, hnd, hwf⟩ := h l rfl
    show readMaxIdsTok (tablesToStr l :: rest) = _
    unfold readMaxIdsTok
    dsimp only
    rw [if_neg (tablesToStr_ne_none_tok l hne),
      tablesFromStr_roundtrip l hne hnd hwf]

theorem nodeTok_colon_mem (ni : NodeInfoM) : ':' ∈ ni.ip ++ ':' :: ni.port := by
  simp

theorem readNodeTok_step (node_info : Option NodeInfoM) (rest : List Str)
    (h : ∀ ni, node_info = some ni → wfNodeInfo ni) :
    readNodeTok (nodeTok node_info :: rest) = .ok (node_info, rest) := by
  cases node_info with
  | none => simp [readNodeTok, nodeTok]
  | some ni =>
    obtain ⟨hip, hport⟩ := h ni rfl
    show readNodeTok ((ni.ip ++ ':' :: ni.port) :: rest) = _
    unfold readNodeTok
    dsimp only
    rw [if_neg (by
      intro heq
      have hcm := nodeTok_colon_mem ni
      rw [heq] at hcm
      exact absurd hcm (by decide))]
    rw [nodeInfoFromStr_roundtrip ni.ip ni.port
      (fun c hc hcc => (hip c hc) (Or.inl hcc))
      (fun c hc hcc => (hport c hc) (Or.inl hcc))]

theorem payloadTok_ne_nil (payload : Option F64Lit) : payloadTok payload ≠ [] := by
  cases payload with
  | none => decide
  | some p => exact f64ToStr_ne_nil p

theorem payloadTok_no_ws (payload : Option F64Lit) :
    ∀ c ∈ payloadTok payload, isWsChar c = false := by
  cases payload with
  | none => decide
  | some p => exact f64ToStr_no_ws p

theorem maxIdsTok_ne_nil (max_ids : Option TablesIdInfoM)
    (h : ∀ l, max_ids = some l → l ≠ []) : maxIdsTok max_ids ≠ [] := by
  cases max_ids with
  | none => decide
  | some l => exact List.ne_nil_of_mem (tablesToStr_colon_mem l (h l rfl))

theorem maxIdsTok_no_ws (max_ids : Option TablesIdInfoM)
    (h : ∀ l, max_ids = some l → ∀ p ∈ l, wfTableEntry p) :
    ∀ c ∈ maxIdsTok max_ids, isWsChar c = false := by
  cases max_ids with
  | none => decide
  | some l => exact tablesToStr_no_ws l (h l rfl)

theorem nodeTok_ne_nil (node_info : Option NodeInfoM) :
    nodeTok node_info ≠ [] := by
  cases node_info with
  | none => decide
  | some ni => exact List.ne_nil_of_mem (nodeTok_colon_mem ni)

theorem nodeTok_no_ws (node_info : Option NodeInfoM)
    (h : ∀ ni, node_info = some ni → wfNodeInfo ni) :
    ∀ c ∈ nodeTok node_info, isWsChar c = false := by
  cases node_info with
  | none => decide
  | some ni =>
    obtain ⟨hip, hport⟩ := h ni rfl
    intro c hc
    rcases List.mem_append.mp hc with h1 | h1
    · cases hw : isWsChar c
      · rfl
      · exact absurd (Or.inr hw) (hip c h1)
    · rcases List.mem_cons.mp h1 with rfl | h2
      · decide
      · cases hw : isWsChar c
        · rfl
        · exact absurd (Or.inr hw) (hport c h2)

/-! ## Claim C4 amended theorem -/

/-- C4 amended.  `decode(encode(m)) = m` on all five fields, for every
message of the eight query-free types whose populated fields are
wire-well-formed (`wfMessage`). -/
theorem message_roundtrip_holds_for_query_free_messages
    (m : MessageM) (h : wfMessage m) :
    MessageM.from_string (MessageM.to_string m) = .ok m := by
  obtain ⟨mt, payload, max_ids, node_info, query⟩ := m
  obtain ⟨hq, hmax, hnode⟩ := h
  have hq' : query = none := hq
  subst hq'
  have hmax' : ∀ l, max_ids = some l →
      l ≠ [] ∧ (l.map Prod.fst).Nodup ∧ ∀ p ∈ l, wfTableEntry p :=
    fun l hl => hmax l hl
  have hnode' : ∀ ni, node_info = some ni → wfNodeInfo ni :=
    fun ni hni => hnode ni hni
  clear hq hmax hnode
  obtain ⟨hT_ne, hT_ws, hT_parse⟩ := messageTypeTok_wf mt
  have hts : MessageM.to_string ⟨mt, payload, max_ids, node_info, none⟩ =
      messageTypeTok mt ++
        (' ' :: (payloadTok payload ++
        (' ' :: (maxIdsTok max_ids ++
        (' ' :: (nodeTok node_info ++
        (' ' :: (lit ("None") ++ '\n' :: [])))))))) := by
    simp [MessageM.to_string, queryTok, List.append_assoc]
  have hsplit : splitWs (MessageM.to_string
      ⟨mt, payload, max_ids, node_info, none⟩) =
      [messageTypeTok mt, payloadTok payload, maxIdsTok max_ids,
        nodeTok node_info, lit ("None")] := by
    rw [hts]
    rw [splitWs_token (messageTypeTok mt) hT_ne hT_ws ' ' (by decide),
      splitWs_token _ (payloadTok_ne_nil payload) (payloadTok_no_ws payload)
        ' ' (by decide),
      splitWs_token _ (maxIdsTok_ne_nil max_ids (fun l hl => (hmax' l hl).1))
        (maxIdsTok_no_ws max_ids (fun l hl => (hmax' l hl).2.2)) ' ' (by decide),
      splitWs_token _ (nodeTok_ne_nil node_info) (nodeTok_no_ws node_info hnode')
        ' ' (by decide),
      splitWs_token (lit ("None")) (by decide) (by decide) '\n' (by decide)]
    rfl
  unfold MessageM.from_string
  rw [hsplit]
  dsimp only
  rw [hT_parse]
  dsimp only
  rw [readPayloadTok_step payload]
  dsimp only
  rw [readMaxIdsTok_step max_ids _ hmax']
  dsimp only
  rw [readNodeTok_step node_info _ hnode']
  dsimp only
  rfl

/-- C4 witness: a concrete `AGREED` message (payload `32.5`, two tables)
survives the round trip. -/
theorem message_roundtrip_query_free_witness :
    wfMessage (MessageM.new_agreed ⟨false, 32, [5]⟩
      [(lit ("employees"), 3), (lit ("departments"), 5)]) ∧
    MessageM.from_string (MessageM.to_string (MessageM.new_agreed ⟨false, 32, [5]⟩
        [(lit ("employees"), 3), (lit ("departments"), 5)])) =
      .ok (MessageM.new_agreed ⟨false, 32, [5]⟩
        [(lit ("employees"), 3), (lit ("departments"), 5)]) :=
  have hwf : wfMessage (MessageM.new_agreed ⟨false, 32, [5]⟩
      [(lit ("employees"), 3), (lit ("departments"), 5)]) :=
    ⟨rfl,
      fun l hl => by
        cases hl
        exact ⟨by decide, by decide, by decide⟩,
      fun ni hni => by cases hni⟩
  ⟨hwf, message_roundtrip_holds_for_query_free_messages _ hwf⟩

/-! ## Heap index and permutation lemmas -/

theorem getO_set_eq : ∀ (l : List SMObj) (i : Nat) (x : SMObj),
    i < l.length → getO (l.set i x) i = x := by
  intro l
  induction l with
  | nil => intro i x h; cases h
  | cons a t ih =>
    intro i x h
    cases i with
    | zero => rfl
    | succ j => exact ih j x (by simpa using h)

theorem getO_set_ne : ∀ (l : List SMObj) (i j : Nat) (x : SMObj),
    i ≠ j → getO (l.set i x) j = getO l j := by
  intro l
  induction l with
  | nil => intro i j x _; rfl
  | cons a t ih =>
    intro i j x hne
    cases i with
    | zero =>
      cases j with
      | zero => exact absurd rfl hne
      | succ m => rfl
    | succ k =>
      cases j with
      | zero => rfl
      | succ m => exact ih k m x (fun h => hne (by rw [h]))

theorem getO_cons_zero (a : SMObj) (t : List SMObj) : getO (a :: t) 0 = a := rfl

theorem getO_append_left : ∀ (l l' : List SMObj) (i : Nat), i < l.length →
    getO (l ++ l') i = getO l i := by
  intro l
  induction l with
  | nil => intro l' i h; cases h
  | cons a t ih =>
    intro l' i h
    cases i with
    | zero => rfl
    | succ j => exact ih l' j (by simpa using h)

theorem getO_take : ∀ (l : List SMObj) (k i : Nat), i < k → i < l.length →
    getO (l.take k) i = getO l i := by
  intro l
  induction l with
  | nil => intro k i _ h; cases h
  | cons a t ih =>
    intro k i hik h
    cases k with
    | zero => cases hik
    | succ m =>
      cases i with
      | zero => rfl
      | succ j => exact ih m j (by omega) (by simpa using h)

theorem perm_get_cons_eraseIdx : ∀ (t : List SMObj) (k : Nat), k < t.length →
    (getO t k :: t.eraseIdx k).Perm t := by
  intro t
  induction t with
  | nil => intro k h; cases h
  | cons b t' ih =>
    intro k h
    cases k with
    | zero => rfl
    | succ m =>
      show (getO t' m :: b :: t'.eraseIdx m).Perm (b :: t')
      exact (List.Perm.swap b (getO t' m) (t'.eraseIdx m)).trans
        ((ih m (by simpa using h)).cons b)

theorem perm_set_eraseIdx : ∀ (l : List SMObj) (i : Nat) (x : SMObj),
    i < l.length → (l.set i x).Perm (x :: l.eraseIdx i) := by
  intro l
  induction l with
  | nil => intro i x h; cases h
  | cons a t ih =>
    intro i x h
    cases i with
    | zero => rfl
    | succ j =>
      show (a :: t.set j x).Perm (x :: a :: t.eraseIdx j)
      exact ((ih j x (by simpa using h)).cons a).trans
        (List.Perm.swap x a (t.eraseIdx j))

theorem perm_move : ∀ (l : List SMObj) (i j : Nat),
    i < l.length → j < l.length → i ≠ j →
    ((l.set i (getO l j)).eraseIdx j).Perm (l.eraseIdx i) := by
  intro l
  induction l with
  | nil => intro i j h _ _; cases h
  | cons a t ih =>
    intro i j hi hj hne
    cases i with
    | zero =>
      cases j with
      | zero => exact absurd rfl hne
      | succ m =>
        show (getO t m :: t).eraseIdx (m + 1) |>.Perm t
        show (getO t m :: t.eraseIdx m).Perm t
        exact perm_get_cons_eraseIdx t m (by simpa using hj)
    | succ k =>
      cases j with
      | zero =>
        show (t.set k a).Perm (a :: t.eraseIdx k)
        exact perm_set_eraseIdx t k a (by simpa using hi)
      | succ m =>
        show (a :: (t.set k (getO t m)).eraseIdx m).Perm (a :: t.eraseIdx k)
        exact (ih k m (by simpa using hi) (by simpa using hj)
          (fun h => hne (by rw [h]))).cons a

theorem siftUpGo_perm : ∀ (fuel : Nat) (elt : SMObj) (d : List SMObj) (pos : Nat),
    pos < d.length → (siftUpGo fuel elt d pos).Perm (elt :: d.eraseIdx pos) := by
  intro fuel
  induction fuel with
  | zero =>
    intro elt d pos h
    exact perm_set_eraseIdx d pos elt h
  | succ f ih =>
    intro elt d pos h
    unfold siftUpGo
    by_cases h0 : 0 < pos
    · rw [if_pos h0]
      by_cases hle : elt.key ≤ (getO d ((pos - 1) / 2)).key
      · rw [if_pos hle]
        exact perm_set_eraseIdx d pos elt h
      · rw [if_neg hle]
        have hpar : (pos - 1) / 2 < pos := by omega
        have hrec := ih elt (d.set pos (getO d ((pos - 1) / 2))) ((pos - 1) / 2)
          (by rw [List.length_set]; omega)
        refine hrec.trans (List.Perm.cons elt ?_)
        exact perm_move d pos ((pos - 1) / 2) h (by omega) (by omega)
    · rw [if_neg h0]
      exact perm_set_eraseIdx d pos elt h

theorem eraseIdx_append_last (d : List SMObj) (x : SMObj) :
    (d ++ [x]).eraseIdx d.length = d := by
  induction d with
  | nil => rfl
  | cons a t ih => show a :: (t ++ [x]).eraseIdx t.length = a :: t; rw [ih]

theorem heapPush_perm (d : List SMObj) (x : SMObj) :
    (heapPush d x).Perm (x :: d) := by
  unfold heapPush
  have h := siftUpGo_perm d.length x (d ++ [x]) d.length
    (by rw [List.length_append]; simp)
  rw [eraseIdx_append_last d x] at h
  exact h

theorem siftDownGo_length : ∀ (fuel : Nat) (d : List SMObj) (hole endd : Nat),
    (siftDownGo fuel d hole endd).1.length = d.length := by
  intro fuel
  induction fuel with
  | zero => intro d hole endd; rfl
  | succ f ih =>
    intro d hole endd
    unfold siftDownGo
    by_cases h1 : 2 * hole + 1 ≤ endd - 2
    · rw [if_pos h1]
      dsimp only
      rw [ih, List.length_set]
    · rw [if_neg h1]
      by_cases h2 : 2 * hole + 1 = endd - 1
      · rw [if_pos h2]
        exact List.length_set d hole _
      · rw [if_neg h2]

theorem siftDownGo_hole_lt : ∀ (fuel : Nat) (d : List SMObj) (hole endd : Nat),
    hole < endd → (siftDownGo fuel d hole endd).2 < endd := by
  intro fuel
  induction fuel with
  | zero => intro d hole endd h; exact h
  | succ f ih =>
    intro d hole endd h
    unfold siftDownGo
    by_cases h1 : 2 * hole + 1 ≤ endd - 2
    · rw [if_pos h1]
      dsimp only
      apply ih
      split <;> omega
    · rw [if_neg h1]
      by_cases h2 : 2 * hole + 1 = endd - 1
      · rw [if_pos h2]
        show 2 * hole + 1 < endd
        omega
      · rw [if_neg h2]
        exact h

theorem siftDownGo_perm : ∀ (fuel : Nat) (d : List SMObj) (hole endd : Nat),
    hole < endd → endd = d.length →
    ((siftDownGo fuel d hole endd).1.eraseIdx
        (siftDownGo fuel d hole endd).2).Perm (d.eraseIdx hole) := by
  intro fuel
  induction fuel with
  | zero => intro d hole endd _ _; rfl
  | succ f ih =>
    intro d hole endd h hlen
    unfold siftDownGo
    by_cases h1 : 2 * hole + 1 ≤ endd - 2
    · rw [if_pos h1]
      dsimp only
      set c := if keyO d (2 * hole + 1) ≤ keyO d (2 * hole + 1 + 1)
          then 2 * hole + 1 + 1 else 2 * hole + 1 with hc
      have hcrange : 2 * hole + 1 ≤ c ∧ c ≤ endd - 1 := by
        rw [hc]; split <;> omega
      have hrec := ih (d.set hole (getO d c)) c endd (by omega)
        (by rw [List.length_set]; omega)
      refine hrec.trans ?_
      exact perm_move d hole c (by omega) (by omega) (by omega)
    · rw [if_neg h1]
      by_cases h2 : 2 * hole + 1 = endd - 1
      · rw [if_pos h2]
        show ((d.set hole (getO d (2 * hole + 1))).eraseIdx (2 * hole + 1)).Perm _
        exact perm_move d hole (2 * hole + 1) (by omega) (by omega) (by omega)
      · rw [if_neg h2]

theorem drop_last_eq : ∀ (l : List SMObj), l ≠ [] →
    l.drop (l.length - 1) = [getO l (l.length - 1)] := by
  intro l
  induction l with
  | nil => intro h; exact absurd rfl h
  | cons a t ih =>
    intro _
    cases t with
    | nil => rfl
    | cons b t' =>
      have h1 : (a :: b :: t').length - 1 = ((b :: t').length - 1) + 1 := by
        simp
      rw [h1]
      show (b :: t').drop ((b :: t').length - 1) =
        [getO (a :: b :: t') (((b :: t').length - 1) + 1)]
      rw [ih (by simp)]
      rfl

theorem take_last_split (l : List SMObj) (h : l ≠ []) :
    l = l.take (l.length - 1) ++ [getO l (l.length - 1)] := by
  conv_lhs => rw [← List.take_append_drop (l.length - 1) l]
  rw [drop_last_eq l h]

theorem heapPop_perm (d : List SMObj) (x : SMObj) (d' : List SMObj)
    (h : heapPop d = some (x, d')) : d.Perm (x :: d') := by
  match d with
  | [] => cases h
  | [a] =>
    have he : heapPop [a] = some (a, ([] : List SMObj)) := rfl
    rw [he] at h
    cases h
    rfl
  | a :: b :: t =>
    have hne : (a :: b :: t).take ((a :: b :: t).length - 1) ≠ [] := by
      simp
    unfold heapPop at h
    dsimp only at h
    rw [if_neg hne] at h
    cases h
    unfold siftDownToBottom
    dsimp only
    generalize hrest : (a :: b :: t).take ((a :: b :: t).length - 1) = rest at *
    generalize hitem : getO (a :: b :: t) ((a :: b :: t).length - 1) = item at *
    have hrlen : rest.length = t.length + 1 := by
      rw [← hrest]
      simp
    have hrne : 0 < rest.length := by omega
    have hplen : (siftDownGo rest.length rest 0 rest.length).1.length =
        rest.length := siftDownGo_length _ _ _ _
    have hphole : (siftDownGo rest.length rest 0 rest.length).2 <
        rest.length := siftDownGo_hole_lt _ _ _ _ hrne
    have hup := siftUpGo_perm (siftDownGo rest.length rest 0 rest.length).2 item
      (siftDownGo rest.length rest 0 rest.length).1
      (siftDownGo rest.length rest 0 rest.length).2 (by omega)
    have hdown := siftDownGo_perm rest.length rest 0 rest.length hrne rfl
    have hd' : (siftUpGo (siftDownGo rest.length rest 0 rest.length).2 item
        (siftDownGo rest.length rest 0 rest.length).1
        (siftDownGo rest.length rest 0 rest.length).2).Perm
        (item :: rest.eraseIdx 0) :=
      hup.trans (List.Perm.cons item hdown)
    have hsplitd : a :: b :: t = rest ++ [item] := by
      rw [← hrest, ← hitem]
      exact take_last_split (a :: b :: t) (by simp)
    have hresthead : rest = a :: rest.tail := by
      rw [← hrest]
      cases t with
      | nil => rfl
      | cons c t' => rfl
    have hrest0 : rest.eraseIdx 0 = rest.tail := by
      rw [hresthead]
      rfl
    rw [hsplitd]
    have hx : getO (rest ++ [item]) 0 = a := by
      rw [hresthead]
      rfl
    rw [hx]
    have step1 : (rest ++ [item]).Perm (a :: (rest.tail ++ [item])) := by
      rw [hresthead, List.cons_append]
      exact List.Perm.refl _
    have step2 : (rest.tail ++ [item]).Perm (item :: rest.tail) :=
      List.perm_append_singleton item rest.tail
    refine step1.trans ((step2.cons a).trans ?_)
    refine List.Perm.cons a ?_
    rw [hrest0] at hd'
    exact hd'.symm

theorem heapPop_none_iff (d : List SMObj) : heapPop d = none ↔ d = [] := by
  constructor
  · intro h
    cases d with
    | nil => rfl
    | cons a t =>
      unfold heapPop at h
      dsimp only at h
      by_cases ht : (a :: t).take ((a :: t).length - 1) = []
      · rw [if_pos ht] at h
        cases h
      · rw [if_neg ht] at h
        cases h
  · intro h
    subst h
    rfl

theorem rebuildFuel_perm : ∀ (n : Nat) (old fresh : List SMObj) (id : Str),
    old.length ≤ n →
    (rebuildFuel n old fresh id).Perm
      (old.filter (fun o => o.value ≠ id) ++ fresh) := by
  intro n
  induction n with
  | zero =>
    intro old fresh id h
    have : old = [] := List.eq_nil_of_length_eq_zero (by omega)
    subst this
    exact List.Perm.refl _
  | succ m ih =>
    intro old fresh id h
    unfold rebuildFuel
    cases hpop : heapPop old with
    | none =>
      have : old = [] := (heapPop_none_iff old).mp hpop
      subst this
      exact List.Perm.refl _
    | some p =>
      obtain ⟨x, old'⟩ := p
      dsimp only
      have hperm := heapPop_perm old x old' hpop
      have hlen : old'.length ≤ m := by
        have := hperm.length_eq
        simp at this
        omega
      have hfilter : (old.filter (fun o => o.value ≠ id)).Perm
          ((x :: old').filter (fun o => o.value ≠ id)) :=
        hperm.filter _
      by_cases hid : x.value = id
      · have hfx : (x :: old').filter (fun o => o.value ≠ id) =
            old'.filter (fun o => o.value ≠ id) := by
          rw [List.filter_cons]
          simp [hid]
        rw [if_pos hid]
        refine (ih old' fresh id hlen).trans ?_
        refine List.Perm.append_right fresh ?_
        rw [← hfx]
        exact hfilter.symm
      · have hfx : (x :: old').filter (fun o => o.value ≠ id) =
            x :: old'.filter (fun o => o.value ≠ id) := by
          rw [List.filter_cons]
          simp [hid]
        rw [if_neg hid]
        refine (ih old' (heapPush fresh x) id hlen).trans ?_
        have hpush : (heapPush fresh x).Perm (x :: fresh) := heapPush_perm fresh x
        refine ((List.Perm.append_left _ hpush).trans ?_)
        have hmid : (old'.filter (fun o => o.value ≠ id) ++ x :: fresh).Perm
            (x :: (old'.filter (fun o => o.value ≠ id) ++ fresh)) :=
          List.perm_middle
        refine hmid.trans ?_
        have : (x :: old'.filter (fun o => o.value ≠ id)).Perm
            (old.filter (fun o => o.value ≠ id)) := by
          rw [← hfx]
          exact hfilter.symm
        exact List.Perm.append_right fresh this

/-! ## Claim C7 amended theorem -/

/-- C7 amended.  On a NONEMPTY manager with no entry for `shard_id`,
`update_shard_memory` succeeds and produces the same multiset of entries as
`add_shard`; the empty-manager case panics
(`update_shard_memory_panics_on_empty_manager`). -/
theorem update_shard_memory_equals_add_shard_on_nonempty_miss
    (heap : List SMObj) (k : ℚ) (id : Str)
    (hne : heap ≠ []) (hmiss : ∀ o ∈ heap, o.value ≠ id) :
    ∃ h', update_shard_memory heap k id = .ok h' ∧
      h'.Perm (add_shard heap k id) := by
  obtain ⟨a, t, rfl⟩ : ∃ a t, heap = a :: t := by
    cases heap with
    | nil => exact absurd rfl hne
    | cons a t => exact ⟨a, t, rfl⟩
  have hpeek : smPeek (a :: t) = some a.value := rfl
  have hid : id ≠ a.value :=
    fun h => (hmiss a (List.mem_cons_self a t)) h.symm
  unfold update_shard_memory smDelete
  rw [hpeek]
  dsimp only
  rw [if_neg hid]
  refine ⟨_, rfl, ?_⟩
  show (heapPush (rebuildFuel (a :: t).length (a :: t) [] id) ⟨k, id⟩).Perm
    (heapPush (a :: t) ⟨k, id⟩)
  have hreb : (rebuildFuel (a :: t).length (a :: t) [] id).Perm (a :: t) := by
    have h1 := rebuildFuel_perm (a :: t).length (a :: t) [] id (le_refl _)
    rw [List.append_nil] at h1
    refine h1.trans ?_
    rw [List.filter_eq_self.mpr (fun o ho => by simpa using hmiss o ho)]
  refine (heapPush_perm _ _).trans (.trans ?_ (heapPush_perm (a :: t) ⟨k, id⟩).symm)
  exact hreb.cons _

/-- C7 witness: a one-entry manager updated at an absent shard id. -/
theorem update_shard_memory_miss_witness :
    ([⟨1, lit ("a")⟩] : List SMObj) ≠ [] ∧
    (∀ o ∈ ([⟨1, lit ("a")⟩] : List SMObj), o.value ≠ lit ("b")) ∧
    (∃ h', update_shard_memory [⟨1, lit ("a")⟩] 2 (lit ("b")) = .ok h' ∧
      h'.Perm (add_shard [⟨1, lit ("a")⟩] 2 (lit ("b")))) :=
  ⟨by decide, by decide,
    update_shard_memory_equals_add_shard_on_nonempty_miss
      [⟨1, lit ("a")⟩] 2 (lit ("b")) (by decide) (by decide)⟩

theorem set_settle_heapProp (d : List SMObj) (pos : Nat) (elt : SMObj)
    (hpl : pos < d.length) (ha : upA d pos) (hb : upB d pos elt)
    (htop : 0 < pos → elt.key ≤ keyO d ((pos - 1) / 2)) :
    heapProp (d.set pos elt) := by
  unfold heapProp
  intro j hj0 hjl
  rw [List.length_set] at hjl
  by_cases hjp : j = pos
  · subst hjp
    have hpar_ne : j ≠ (j - 1) / 2 := by omega
    unfold keyO
    rw [getO_set_eq d j elt hpl, getO_set_ne d j _ elt hpar_ne]
    exact htop hj0
  · have hj : getO (d.set pos elt) j = getO d j :=
      getO_set_ne d pos j elt (fun h => hjp h.symm)
    by_cases hpar : (j - 1) / 2 = pos
    · unfold keyO
      rw [hj, hpar, getO_set_eq d pos elt hpl]
      exact (hb j hj0 hjl hpar).1
    · unfold keyO
      rw [hj, getO_set_ne d pos _ elt (fun h => hpar h.symm)]
      exact ha j hj0 hjl hjp hpar

theorem siftUpGo_heapProp : ∀ (fuel : Nat) (elt : SMObj) (d : List SMObj) (pos : Nat),
    pos ≤ fuel → pos < d.length → upA d pos → upB d pos elt →
    heapProp (siftUpGo fuel elt d pos) := by
  intro fuel
  induction fuel with
  | zero =>
    intro elt d pos hpf hpl ha hb
    have hp0 : pos = 0 := Nat.le_zero.mp hpf
    subst hp0
    show heapProp (d.set 0 elt)
    exact set_settle_heapProp d 0 elt hpl ha hb (fun h => absurd h (by omega))
  | succ m ih =>
    intro elt d pos hpf hpl ha hb
    unfold siftUpGo
    by_cases hpos : 0 < pos
    · rw [if_pos hpos]
      dsimp only
      by_cases hle : elt.key ≤ (getO d ((pos - 1) / 2)).key
      · rw [if_pos hle]
        exact set_settle_heapProp d pos elt hpl ha hb (fun _ => hle)
      · rw [if_neg hle]
        have hparlt : (pos - 1) / 2 < pos := by omega
        have hparl : (pos - 1) / 2 < d.length := lt_trans hparlt hpl
        have hkey : keyO d ((pos - 1) / 2) < elt.key := lt_of_not_le hle
        apply ih elt (d.set pos (getO d ((pos - 1) / 2))) ((pos - 1) / 2)
          (by omega) (by rw [List.length_set]; exact hparl)
        · -- upA of the shifted array at the parent
          intro j hj0 hjl hjne hparne
          rw [List.length_set] at hjl
          by_cases hjpos : j = pos
          · exact absurd (by omega : (j - 1) / 2 = (pos - 1) / 2) hparne
          · have hj : getO (d.set pos (getO d ((pos - 1) / 2))) j = getO d j :=
              getO_set_ne d pos j _ (fun h => hjpos h.symm)
            by_cases hppos : (j - 1) / 2 = pos
            · unfold keyO
              rw [hj, hppos, getO_set_eq d pos _ hpl]
              exact (hb j hj0 hjl hppos).2 hpos
            · unfold keyO
              rw [hj, getO_set_ne d pos _ _ (fun h => hppos h.symm)]
              exact ha j hj0 hjl hjpos hppos
        · -- upB of the shifted array at the parent
          intro j hj0 hjl hpar
          rw [List.length_set] at hjl
          have hgp_ne : (((pos - 1) / 2) - 1) / 2 ≠ pos := by omega
          have hgp :
              0 < (pos - 1) / 2 →
                keyO d ((pos - 1) / 2) ≤ keyO d ((((pos - 1) / 2) - 1) / 2) :=
            fun hgpos =>
              ha ((pos - 1) / 2) hgpos hparl (by omega) hgp_ne
          by_cases hjpos : j = pos
          · subst hjpos
            constructor
            · unfold keyO
              rw [getO_set_eq d j _ hpl]
              exact le_of_lt hkey
            · intro hgpos
              unfold keyO
              rw [getO_set_eq d j _ hpl,
                getO_set_ne d j _ _ (fun h => hgp_ne h.symm)]
              exact hgp hgpos
          · have hj : getO (d.set pos (getO d ((pos - 1) / 2))) j = getO d j :=
              getO_set_ne d pos j _ (fun h => hjpos h.symm)
            have hja : keyO d j ≤ keyO d ((pos - 1) / 2) := by
              have := ha j hj0 hjl hjpos (by omega)
              rw [hpar] at this
              exact this
            constructor
            · unfold keyO
              rw [hj]
              exact le_of_lt (lt_of_le_of_lt hja hkey)
            · intro hgpos
              unfold keyO
              rw [hj, getO_set_ne d pos _ _ (fun h => hgp_ne h.symm)]
              exact le_trans hja (hgp hgpos)
    · rw [if_neg hpos]
      exact set_settle_heapProp d pos elt hpl ha hb (fun h => absurd h hpos)

theorem heapPush_heapProp (d : List SMObj) (x : SMObj) (h : heapProp d) :
    heapProp (heapPush d x) := by
  unfold heapPush
  apply siftUpGo_heapProp d.length x (d ++ [x]) d.length (le_refl _)
    (by rw [List.length_append]; simp)
  · intro j hj0 hjl hjne hpne
    rw [List.length_append] at hjl
    simp at hjl
    have hjd : j < d.length := by omega
    unfold keyO
    rw [getO_append_left d [x] j hjd, getO_append_left d [x] _ (by omega)]
    exact h j hj0 hjd
  · intro j hj0 hjl hpar
    exfalso
    rw [List.length_append] at hjl
    simp at hjl
    omega

theorem down_move_inv (d : List SMObj) (hole c : Nat)
    (hc : c = 2 * hole + 1 ∨ c = 2 * hole + 2) (hcl : c < d.length)
    (hother : ∀ o, (o = 2 * hole + 1 ∨ o = 2 * hole + 2) → o ≠ c →
      o < d.length → keyO d o ≤ keyO d c)
    (ha : upA d hole) (hb : dnB d hole) :
    upA (d.set hole (getO d c)) c ∧ dnB (d.set hole (getO d c)) c := by
  have hhc : hole < c := by omega
  have hhl : hole < d.length := lt_trans hhc hcl
  have hcpar : (c - 1) / 2 = hole := by omega
  constructor
  · intro j hj0 hjl hjc hpc
    rw [List.length_set] at hjl
    by_cases hjh : j = hole
    · subst hjh
      have hhpos : 0 < j := hj0
      have hppar_ne : j ≠ (j - 1) / 2 := by omega
      have hpc_ne : c ≠ (j - 1) / 2 := by omega
      unfold keyO
      rw [getO_set_eq d j _ hhl, getO_set_ne d j _ _ hppar_ne]
      exact hb c (by omega) hcl hcpar hj0
    · have hj : getO (d.set hole (getO d c)) j = getO d j :=
        getO_set_ne d hole j _ (fun h => hjh h.symm)
      by_cases hph : (j - 1) / 2 = hole
      · have hjch : j = 2 * hole + 1 ∨ j = 2 * hole + 2 := by omega
        unfold keyO
        rw [hj, hph, getO_set_eq d hole _ hhl]
        exact hother j hjch hjc hjl
      · unfold keyO
        rw [hj, getO_set_ne d hole _ _ (fun h => hph h.symm)]
        exact ha j hj0 hjl hjh hph
  · intro j hj0 hjl hpar hcpos
    rw [List.length_set] at hjl
    have hjh : j ≠ hole := by omega
    have hj : getO (d.set hole (getO d c)) j = getO d j :=
      getO_set_ne d hole j _ (fun h => hjh h.symm)
    unfold keyO
    rw [hj, hcpar, getO_set_eq d hole _ hhl]
    have := ha j hj0 hjl hjh (by omega)
    rw [hpar] at this
    exact this

theorem siftDownGo_spec : ∀ (fuel : Nat) (d : List SMObj) (hole endd : Nat),
    endd = d.length → hole < endd → endd ≤ fuel + hole →
    upA d hole → dnB d hole →
    ((siftDownGo fuel d hole endd).1.length = d.length ∧
     (siftDownGo fuel d hole endd).2 < endd ∧
     endd ≤ 2 * (siftDownGo fuel d hole endd).2 + 1 ∧
     upA (siftDownGo fuel d hole endd).1 (siftDownGo fuel d hole endd).2 ∧
     dnB (siftDownGo fuel d hole endd).1 (siftDownGo fuel d hole endd).2) := by
  intro fuel
  induction fuel with
  | zero =>
    intro d hole endd hend hlt hfuel ha hb
    omega
  | succ m ih =>
    intro d hole endd hend hlt hfuel ha hb
    unfold siftDownGo
    dsimp only
    by_cases h1 : 2 * hole + 1 ≤ endd - 2
    · rw [if_pos h1]
      have hc1l : 2 * hole + 1 < d.length := by omega
      have hc2l : 2 * hole + 2 < d.length := by omega
      by_cases h2 : keyO d (2 * hole + 1) ≤ keyO d (2 * hole + 1 + 1)
      · rw [if_pos h2]
        have hmv := down_move_inv d hole (2 * hole + 2) (Or.inr rfl) hc2l
          (fun o ho hoc hol => by
            have : o = 2 * hole + 1 := by omega
            subst this
            exact h2)
          ha hb
        have := ih (d.set hole (getO d (2 * hole + 2))) (2 * hole + 2) endd
          (by rw [List.length_set]; exact hend) (by omega) (by omega)
          hmv.1 hmv.2
        rw [List.length_set] at this
        exact this
      · rw [if_neg h2]
        have hk : keyO d (2 * hole + 1 + 1) < keyO d (2 * hole + 1) :=
          lt_of_not_le h2
        have hmv := down_move_inv d hole (2 * hole + 1) (Or.inl rfl) hc1l
          (fun o ho hoc hol => by
            have : o = 2 * hole + 2 := by omega
            subst this
            exact le_of_lt hk)
          ha hb
        have := ih (d.set hole (getO d (2 * hole + 1))) (2 * hole + 1) endd
          (by rw [List.length_set]; exact hend) (by omega) (by omega)
          hmv.1 hmv.2
        rw [List.length_set] at this
        exact this
    · rw [if_neg h1]
      by_cases h2 : 2 * hole + 1 = endd - 1
      · rw [if_pos h2]
        have hc1l : 2 * hole + 1 < d.length := by omega
        have hmv := down_move_inv d hole (2 * hole + 1) (Or.inl rfl) hc1l
          (fun o ho hoc hol => by
            exfalso
            rw [← hend] at hol
            omega)
          ha hb
        exact ⟨List.length_set d hole _, by omega, by omega, hmv.1, hmv.2⟩
      · rw [if_neg h2]
        exact ⟨rfl, hlt, by omega, ha, hb⟩

theorem siftDownToBottom_heapProp (d : List SMObj) (elt : SMObj)
    (hne : 0 < d.length) (hp : heapProp d) :
    heapProp (siftDownToBottom d elt) := by
  unfold siftDownToBottom
  dsimp only
  have hspec := siftDownGo_spec d.length d 0 d.length rfl hne (by omega)
    (fun j hj0 hjl _ hp0 => hp j hj0 hjl)
    (fun j hj0 hjl hpar h0 => absurd h0 (by omega))
  obtain ⟨hlen, hlt, hbot, ha, hb⟩ := hspec
  apply siftUpGo_heapProp _ elt _ _ (le_refl _) (by rw [hlen]; exact hlt) ha
  intro j hj0 hjl hpar
  exfalso
  rw [hlen] at hjl
  omega

theorem heapProp_take (d : List SMObj) (k : Nat) (h : heapProp d) :
    heapProp (d.take k) := by
  intro j hj0 hjl
  rw [List.length_take] at hjl
  have hjk : j < k := lt_of_lt_of_le hjl (min_le_left _ _)
  have hjd : j < d.length := lt_of_lt_of_le hjl (min_le_right _ _)
  unfold keyO
  rw [getO_take d k j hjk hjd, getO_take d k ((j - 1) / 2) (by omega) (by omega)]
  exact h j hj0 hjd

theorem heapProp_nil : heapProp [] := by
  intro j hj0 hjl
  simp at hjl

theorem heapPop_heapProp (d : List SMObj) (x : SMObj) (d' : List SMObj)
    (hp : heapProp d) (h : heapPop d = some (x, d')) : heapProp d' := by
  cases d with
  | nil => cases h
  | cons a t =>
    unfold heapPop at h
    dsimp only at h
    by_cases ht : (a :: t).take ((a :: t).length - 1) = []
    · rw [if_pos ht] at h
      simp only [Option.some.injEq, Prod.mk.injEq] at h
      rw [← h.2]
      exact heapProp_nil
    · rw [if_neg ht] at h
      simp only [Option.some.injEq, Prod.mk.injEq] at h
      rw [← h.2]
      exact siftDownToBottom_heapProp _ _
        (List.length_pos.mpr ht) (heapProp_take _ _ hp)

theorem rebuildFuel_heapProp : ∀ (n : Nat) (old fresh : List SMObj) (id : Str),
    heapProp fresh → heapProp (rebuildFuel n old fresh id) := by
  intro n
  induction n with
  | zero => intro old fresh id h; exact h
  | succ m ih =>
    intro old fresh id h
    unfold rebuildFuel
    cases hpop : heapPop old with
    | none => exact h
    | some p =>
      obtain ⟨x, old'⟩ := p
      dsimp only
      by_cases hid : x.value = id
      · rw [if_pos hid]
        exact ih old' fresh id h
      · rw [if_neg hid]
        exact ih old' _ id (heapPush_heapProp fresh x h)

theorem update_shard_memory_heapProp (h : List SMObj) (k : ℚ) (id : Str)
    (st : List SMObj) (hh : heapProp h)
    (hu : update_shard_memory h k id = .ok st) : heapProp st := by
  unfold update_shard_memory smDelete at hu
  cases h with
  | nil => cases hu
  | cons a t =>
    dsimp only [smPeek] at hu
    by_cases hid : id = a.value
    · rw [if_pos hid] at hu
      cases hpop : heapPop (a :: t) with
      | none =>
        rw [hpop] at hu
        dsimp only [PResult.map] at hu
        injection hu with hu
        rw [← hu]
        exact heapPush_heapProp _ _ hh
      | some p =>
        obtain ⟨x, h'⟩ := p
        rw [hpop] at hu
        dsimp only [PResult.map] at hu
        injection hu with hu
        rw [← hu]
        exact heapPush_heapProp _ _ (heapPop_heapProp (a :: t) x h' hh hpop)
    · rw [if_neg hid] at hu
      dsimp only [PResult.map] at hu
      injection hu with hu
      rw [← hu]
      exact heapPush_heapProp _ _
        (rebuildFuel_heapProp (a :: t).length (a :: t) [] id heapProp_nil)

theorem runOpsFrom_heapProp : ∀ (ops : List SMOp) (h0 st : List SMObj),
    heapProp h0 → runOpsFrom ops h0 = .ok st → heapProp st := by
  intro ops
  induction ops with
  | nil =>
    intro h0 st hh heq
    injection heq with heq
    rw [← heq]
    exact hh
  | cons op ops ih =>
    intro h0 st hh heq
    cases op with
    | add k id =>
      exact ih _ st (heapPush_heapProp h0 ⟨k, id⟩ hh) heq
    | upd k id =>
      unfold runOpsFrom at heq
      cases hu : update_shard_memory h0 k id with
      | panicked =>
        rw [hu] at heq
        cases heq
      | ok h' =>
        rw [hu] at heq
        exact ih h' st (update_shard_memory_heapProp h0 k id h' hh hu) heq

theorem getO_get : ∀ (l : List SMObj) (i : Nat) (h : i < l.length),
    getO l i = l.get ⟨i, h⟩ := by
  intro l
  induction l with
  | nil => intro i h; cases h
  | cons a t ih =>
    intro i h
    cases i with
    | zero => rfl
    | succ j => exact ih j (by simpa using h)

theorem heapProp_le_root (d : List SMObj) (h : heapProp d) :
    ∀ j, j < d.length → keyO d j ≤ keyO d 0 := by
  intro j
  induction j using Nat.strong_induction_on with
  | _ j ih =>
    intro hj
    cases Nat.eq_zero_or_pos j with
    | inl h0 =>
      subst h0
      exact le_refl _
    | inr hpos =>
      exact (h j hpos hj).trans (ih ((j - 1) / 2) (by omega) (by omega))

/-! ## Claim C8 amended theorem -/

/-- C8 amended.  After any panic-free sequence of `add_shard` /
`update_shard_memory` operations, `peek` returns the `shard_id` of an entry
whose key is at least every other present entry's key — but ties between
equal keys are not broken by insertion order
(`peek_tie_not_broken_by_insertion_order`). -/
theorem peek_returns_maximal_key_after_any_ops
    (ops : List SMOp) (st : List SMObj) (v : Str)
    (hrun : runOps ops = .ok st) (hpeek : smPeek st = some v) :
    ∃ o, o ∈ st ∧ o.value = v ∧ ∀ o' ∈ st, o'.key ≤ o.key := by
  have hp : heapProp st := runOpsFrom_heapProp ops [] st heapProp_nil hrun
  cases st with
  | nil => cases hpeek
  | cons a t =>
    refine ⟨a, List.mem_cons_self a t, Option.some.inj hpeek, ?_⟩
    intro o' ho'
    obtain ⟨n, hn⟩ := List.get_of_mem ho'
    have h1 : keyO (a :: t) n.1 = o'.key := by
      unfold keyO
      rw [getO_get (a :: t) n.1 n.2]
      exact congrArg SMObj.key hn
    rw [← h1]
    exact heapProp_le_root (a :: t) hp n.1 n.2

/-- C8 witness: two inserts with distinct keys; `peek` names the entry
holding the maximal key. -/
theorem peek_maximal_witness :
    runOps [SMOp.add 2 (lit ("a")), SMOp.add 1 (lit ("b"))] =
      .ok [⟨2, lit ("a")⟩, ⟨1, lit ("b")⟩] ∧
    smPeek [⟨2, lit ("a")⟩, ⟨1, lit ("b")⟩] = some (lit ("a")) ∧
    (∃ o, o ∈ [(⟨2, lit ("a")⟩ : SMObj), ⟨1, lit ("b")⟩] ∧
      o.value = lit ("a") ∧
      ∀ o' ∈ [(⟨2, lit ("a")⟩ : SMObj), ⟨1, lit ("b")⟩], o'.key ≤ o.key) :=
  ⟨by decide, rfl,
    peek_returns_maximal_key_after_any_ops
      [SMOp.add 2 (lit ("a")), SMOp.add 1 (lit ("b"))]
      [⟨2, lit ("a")⟩, ⟨1, lit ("b")⟩] (lit ("a")) (by decide) rfl⟩
